import Mathlib

/-!
Verification development for the FWABF (flexiWAN ACL-Based Forwarding) core:
a shallow embedding of the Link/Label Registry (`fwabf_links.c`), the Policy
Decision Module (`fwabf_policy.c`) and the Attachment Store
(`fwabf_itf_attach.c`), together with theorems about the embedded operations.

Machine integers are modelled as `Nat`, with wraparound made explicit where a
`u32` counter is incremented or decremented.  Vectors are modelled as `List`;
direct-addressed arrays (the adjacency→label maps, the hash databases) are
modelled as total functions updated pointwise.  External collaborators (the
FIB path-list machinery, the ACL plugin, the graph dispatcher) enter the model
only through the values they return, which become explicit parameters of the
embedded operations.
-/

namespace Fwabf

/-- Pointwise update of a map modelled as a total function on `Nat`. -/
def updFn {α : Type} (f : Nat → α) (k : Nat) (v : α) : Nat → α :=
  fun n => if n = k then v else f n

/-- Pointwise update of a two-key map (used for the attachment hash DB,
whose key is the pair (policy id, sw_if_index)). -/
def updFn2 {α : Type} (f : Nat → Nat → α) (k1 k2 : Nat) (v : α) : Nat → Nat → α :=
  fun a b => if a = k1 ∧ b = k2 then v else f a b

/-- `u32` increment with wraparound (C `x++` on a 32-bit unsigned counter). -/
def u32inc (x : Nat) : Nat := (x + 1) % 4294967296

/-- `u32` decrement with wraparound (C `x--` on a 32-bit unsigned counter). -/
def u32dec (x : Nat) : Nat := (x + 4294967295) % 4294967296

/-- VPP `INDEX_INVALID` (`~0` as u32). -/
def INDEX_INVALID : Nat := 4294967295

/-- `FWABF_INVALID_LABEL` from fwabf_links.h. -/
def FWABF_INVALID_LABEL : Nat := 255

/-- `FWABF_MAX_LABEL` from fwabf_links.h. -/
def FWABF_MAX_LABEL : Nat := 254

/-- `FWABF_MAX_ADJ_INDEX` from fwabf_links.c. -/
def FWABF_MAX_ADJ_INDEX : Nat := 65535

/-- Return codes of the embedded control-plane operations.  The C code returns
`vnet` API error numbers whose numeric values are defined outside the sources
modelled here; the model keeps them symbolic and distinct.  `assertFailure`
stands for control paths that the C code guards with `ASSERT` only. -/
inductive RetCode where
  | ok
  | invalidArgument
  | valueExist
  | entryAlreadyExists
  | instanceInUse
  | invalidValue
  | assertFailure
deriving DecidableEq, Repr

/-- The DPO types relevant to the FWABF module (`dpo_type_t`).  `invalid`
stands for `DPO_FIRST`, the type carried by `DPO_INVALID`. -/
inductive DpoType where
  | invalid
  | adjacency
  | adjacencyMidchain
  | adjacencyIncomplete
  | receive
  | drop
deriving DecidableEq, Repr

/-- IP protocol selector of a DPO (`dpo_proto_t`, restricted to the two values
the FWABF plugin uses). -/
inductive DpoProto where
  | ip4
  | ip6
deriving DecidableEq, Repr

/-- A forwarding descriptor (`dpo_id_t`): the type and the index of the object
it points to (for adjacency DPO types, the adjacency index). -/
structure DpoId where
  dpoiType : DpoType
  dpoiIndex : Nat
deriving DecidableEq, Repr

/-- The `DPO_INVALID` constant: type `DPO_FIRST`, index `~0`. -/
def dpoInvalid : DpoId := ⟨.invalid, INDEX_INVALID⟩

/-- `dpo_id_is_valid`: a DPO is valid when its type is not the invalid type. -/
def dpoIdIsValid (d : DpoId) : Bool := d.dpoiType != .invalid

/-- The `FWABF_DPO_ADJACENCY_UP` macro of fwabf_links.c: the adjacency behind
the DPO is usable for forwarding. -/
def FWABF_DPO_ADJACENCY_UP (d : DpoId) : Bool :=
  d.dpoiType == .adjacency || d.dpoiType == .adjacencyMidchain

/-- `drop_dpo_get`: the per-protocol drop DPO (a valid DPO of drop type). -/
def drop_dpo_get (proto : DpoProto) : DpoId :=
  ⟨.drop, match proto with | .ip4 => 0 | .ip6 => 1⟩

/-- A FIB lookup result of load-balance type (`load_balance_t`): the list of
its buckets, each a forwarding DPO.  `lb_n_buckets` is the list length. -/
structure LoadBalance where
  lb_buckets : List DpoId
deriving DecidableEq, Repr

/-- `lb->lb_n_buckets`. -/
def LoadBalance.lb_n_buckets (lb : LoadBalance) : Nat := lb.lb_buckets.length

/-- `load_balance_get_bucket_i`: the i-th bucket (the inline accessor used by
the single-bucket path). -/
def load_balance_get_bucket_i (lb : LoadBalance) (i : Nat) : DpoId :=
  lb.lb_buckets.getD i dpoInvalid

/-- `load_balance_get_fwd_bucket`: the i-th forwarding bucket (the accessor
used by the multi-bucket path; in the model both accessors read the same
bucket list). -/
def load_balance_get_fwd_bucket (lb : LoadBalance) (i : Nat) : DpoId :=
  lb.lb_buckets.getD i dpoInvalid

/-- One FWABF Link (`fwabf_link_t`), restricted to the fields the embedded
operations read or write: the validity sentinel `sw_if_index`, the label,
the cached forwarding descriptor and the loss component of the quality
record.  The FIB-graph linkage fields (`fnode`, path-list handles) are
external state owned by the routing subsystem and are not modelled. -/
structure FwabfLinkT where
  sw_if_index : Nat
  fwlabel : Nat
  dpo : DpoId
  qualityLoss : Nat
deriving DecidableEq, Repr

/-- A freshly `vec_resize`-d Link slot: zero-filled, then `sw_if_index` set to
`INDEX_INVALID` by the resize loop in `fwabf_links_add_interface`. -/
def linkFresh : FwabfLinkT := ⟨INDEX_INVALID, 0, ⟨.invalid, 0⟩, 0⟩

/-- One entry of the `fwabf_labels` vector (`fwabf_label_data_t`). -/
structure FwabfLabelDataT where
  sw_if_index : Nat
  counter_hits : Nat
  counter_misses : Nat
  counter_enforced_hits : Nat
  counter_enforced_misses : Nat
deriving DecidableEq, Repr

/-- The state of the Link/Label Registry (the static variables of
fwabf_links.c): the Link vector, the label→interface map with its per-label
counters, and the two direct-addressed adjacency→label maps. -/
structure LinksState where
  fwabf_links : List FwabfLinkT
  fwabf_labels : Nat → FwabfLabelDataT
  adj_indexes_to_labels : Nat → Nat
  adj_indexes_to_reachable_labels : Nat → Nat

/-- `FWABF_SW_INTERFACE_IS_INVALID`. -/
def FWABF_SW_INTERFACE_IS_INVALID (s : LinksState) (sw : Nat) : Prop :=
  s.fwabf_links.length ≤ sw ∨ (s.fwabf_links.getD sw linkFresh).sw_if_index = INDEX_INVALID

instance (s : LinksState) (sw : Nat) : Decidable (FWABF_SW_INTERFACE_IS_INVALID s sw) := by
  unfold FWABF_SW_INTERFACE_IS_INVALID; infer_instance

/-- Increment `fwabf_labels[l].counter_hits`. -/
def bumpHits (s : LinksState) (l : Nat) : LinksState :=
  { s with fwabf_labels :=
      let e := s.fwabf_labels l
      updFn s.fwabf_labels l { e with counter_hits := u32inc e.counter_hits } }

/-- Increment `fwabf_labels[l].counter_misses`. -/
def bumpMisses (s : LinksState) (l : Nat) : LinksState :=
  { s with fwabf_labels :=
      let e := s.fwabf_labels l
      updFn s.fwabf_labels l { e with counter_misses := u32inc e.counter_misses } }

/-- Increment `fwabf_labels[l].counter_enforced_hits`. -/
def bumpEnforcedHits (s : LinksState) (l : Nat) : LinksState :=
  { s with fwabf_labels :=
      let e := s.fwabf_labels l
      updFn s.fwabf_labels l { e with counter_enforced_hits := u32inc e.counter_enforced_hits } }

/-- Increment `fwabf_labels[l].counter_enforced_misses`. -/
def bumpEnforcedMisses (s : LinksState) (l : Nat) : LinksState :=
  { s with fwabf_labels :=
      let e := s.fwabf_labels l
      updFn s.fwabf_labels l { e with counter_enforced_misses := u32inc e.counter_enforced_misses } }

/-- The ECMP loop of `fwabf_links_get_dpo` (fwabf_links.c): walk the remaining
buckets in declared order and return the first whose adjacency carries the
label in the reachable map; on exhaustion count a miss and return
`DPO_INVALID`. -/
def fwabf_links_get_dpo_loop (fwlabel : Nat) (s : LinksState) :
    List DpoId → DpoId × LinksState
  | [] => (dpoInvalid, bumpMisses s fwlabel)
  | d :: rest =>
    if s.adj_indexes_to_reachable_labels d.dpoiIndex = fwlabel then
      (d, bumpHits s fwlabel)
    else
      fwabf_links_get_dpo_loop fwlabel s rest

/-- `fwabf_links_get_dpo` (fwabf_links.c): intersect the FIB lookup result
with the labeled links through the reachable adjacency→label map.  A single
bucket is checked directly; multiple buckets are walked in declared order. -/
def fwabf_links_get_dpo (fwlabel : Nat) (lb : LoadBalance) (s : LinksState) :
    DpoId × LinksState :=
  if lb.lb_n_buckets = 1 then
    let lookup_dpo := load_balance_get_bucket_i lb 0
    if s.adj_indexes_to_reachable_labels lookup_dpo.dpoiIndex = fwlabel then
      (lookup_dpo, bumpHits s fwlabel)
    else
      (dpoInvalid, bumpMisses s fwlabel)
  else
    fwabf_links_get_dpo_loop fwlabel s lb.lb_buckets

/-- `fwabf_links_get_labeled_dpo` (fwabf_links.c): the labeled link's own
cached DPO, returned only when the link exists, is up and its loss is below
100. -/
def fwabf_links_get_labeled_dpo (fwlabel : Nat) (s : LinksState) :
    DpoId × LinksState :=
  let label := s.fwabf_labels fwlabel
  let link := s.fwabf_links.getD label.sw_if_index linkFresh
  if label.sw_if_index = INDEX_INVALID then
    (dpoInvalid, s)
  else if FWABF_DPO_ADJACENCY_UP link.dpo ∧ link.qualityLoss < 100 then
    (link.dpo, bumpEnforcedHits s fwlabel)
  else
    (dpoInvalid, bumpEnforcedMisses s fwlabel)

/-- `fwabf_link_refresh_dpo` (fwabf_links.c): refresh the cached forwarding
descriptor of the link at `sw` with the DPO contributed by the FIB path-list
(`new_dpo`, the result of `fib_path_list_contribute_forwarding` stacked on
the FWABF node, which is external input here).  The reachable map entry for
the new adjacency is set to the link's label when the adjacency is up and to
the invalid label otherwise; the admin map entry is set only when it
currently holds the invalid label. -/
def fwabf_link_refresh_dpo (s : LinksState) (sw : Nat) (new_dpo : DpoId) : LinksState :=
  let link := s.fwabf_links.getD sw linkFresh
  let links1 := s.fwabf_links.set sw { link with dpo := new_dpo }
  let reach1 :=
    if FWABF_DPO_ADJACENCY_UP new_dpo then
      updFn s.adj_indexes_to_reachable_labels new_dpo.dpoiIndex link.fwlabel
    else
      updFn s.adj_indexes_to_reachable_labels new_dpo.dpoiIndex FWABF_INVALID_LABEL
  let admin1 :=
    if s.adj_indexes_to_labels new_dpo.dpoiIndex = FWABF_INVALID_LABEL then
      updFn s.adj_indexes_to_labels new_dpo.dpoiIndex link.fwlabel
    else
      s.adj_indexes_to_labels
  { s with fwabf_links := links1,
           adj_indexes_to_reachable_labels := reach1,
           adj_indexes_to_labels := admin1 }

/-- `fwabf_links_add_interface` (fwabf_links.c): register a labeled link.
`new_dpo` is the forwarding descriptor the freshly created path-list
contributes (external input of the embedded `fwabf_link_refresh_dpo` step).
Fails without mutation on a label of 255 or more and on an already
registered interface. -/
def fwabf_links_add_interface (s : LinksState) (sw fwlabel : Nat) (new_dpo : DpoId) :
    RetCode × LinksState :=
  if FWABF_INVALID_LABEL ≤ fwlabel then
    (.invalidArgument, s)
  else
    let links0 :=
      if s.fwabf_links.length ≤ sw then
        s.fwabf_links ++ List.replicate (sw + 1 - s.fwabf_links.length) linkFresh
      else
        s.fwabf_links
    if (links0.getD sw linkFresh).sw_if_index = INDEX_INVALID then
      let labels1 :=
        let e := s.fwabf_labels fwlabel
        updFn s.fwabf_labels fwlabel { e with sw_if_index := sw }
      let link := links0.getD sw linkFresh
      let links1 :=
        links0.set sw { link with fwlabel := fwlabel, sw_if_index := sw, dpo := dpoInvalid }
      let s1 : LinksState := { s with fwabf_links := links1, fwabf_labels := labels1 }
      (.ok, fwabf_link_refresh_dpo s1 sw new_dpo)
    else
      (.valueExist, s)

/-- The first mutation of `fwabf_links_del_interface`: invalidate the Link
slot (so the datapath stops using it) and nothing else. -/
def fwabf_links_del_invalidate (s : LinksState) (sw : Nat) : LinksState :=
  let link := s.fwabf_links.getD sw linkFresh
  { s with fwabf_links := s.fwabf_links.set sw { link with sw_if_index := INDEX_INVALID } }

/-- The mutations of `fwabf_links_del_interface` that follow the slot
invalidation: remove the label→interface mapping, clear the admin
adjacency→label entry for the link's cached DPO (when that DPO carries an
index), and reset the cached DPO (`dpo_reset`).  `fwlabel` and `dpo` are the
values read from the link.  The path-list detach calls mutate only
routing-subsystem state and are not part of the registry state. -/
def fwabf_links_del_rest (s : LinksState) (sw fwlabel : Nat) (dpo : DpoId) : LinksState :=
  let labels1 :=
    let e := s.fwabf_labels fwlabel
    updFn s.fwabf_labels fwlabel { e with sw_if_index := INDEX_INVALID }
  let admin1 :=
    if dpo.dpoiIndex ≠ INDEX_INVALID then
      updFn s.adj_indexes_to_labels dpo.dpoiIndex FWABF_INVALID_LABEL
    else
      s.adj_indexes_to_labels
  let link := s.fwabf_links.getD sw linkFresh
  let links1 := s.fwabf_links.set sw { link with dpo := dpoInvalid }
  { s with fwabf_links := links1, fwabf_labels := labels1, adj_indexes_to_labels := admin1 }

/-- `fwabf_links_del_interface` (fwabf_links.c): delete the link registered
for `sw`.  Returns ok and changes nothing on an unknown interface; otherwise
first invalidates the Link slot and then performs the remaining mutations. -/
def fwabf_links_del_interface (s : LinksState) (sw : Nat) : RetCode × LinksState :=
  if FWABF_SW_INTERFACE_IS_INVALID s sw then
    (.ok, s)
  else
    let link := s.fwabf_links.getD sw linkFresh
    (.ok, fwabf_links_del_rest (fwabf_links_del_invalidate s sw) sw link.fwlabel link.dpo)

/-- Selection algorithm of a group / of the action (`fwabf_selection_alg_t`). -/
inductive FwabfSelectionAlg where
  | random
  | ordered
deriving DecidableEq, Repr

/-- Fallback behavior of an action (`fwabf_fallback_t`). -/
inductive FwabfFallback where
  | defaultRoute
  | drop
deriving DecidableEq, Repr

/-- A group of labeled links inside a policy action
(`fwabf_policy_link_group_t`), including the fields pre-computed by
`unformat_action`. -/
structure FwabfPolicyLinkGroup where
  alg : FwabfSelectionAlg
  links : List Nat
  n_links_minus_1 : Nat
  n_links_pow2_mask : Nat
deriving DecidableEq, Repr

/-- A policy action (`fwabf_policy_action_t`), including the fields
pre-computed by `unformat_action`. -/
structure FwabfPolicyAction where
  fallback : FwabfFallback
  alg : FwabfSelectionAlg
  link_groups : List FwabfPolicyLinkGroup
  n_link_groups_minus_1 : Nat
  n_link_groups_pow2_mask : Nat
deriving DecidableEq, Repr

/-- The group slot used when the C code indexes `link_groups` (the model
totalizes list indexing with this default; the theorems carry bounds under
which it is never used). -/
def groupDefault : FwabfPolicyLinkGroup := ⟨.ordered, [], 0, 0⟩

/-- The internal fields of a group as `unformat_action` (fwabf_policy.c)
computes them: `n_links_minus_1 = len - 1` and the pow2 mask is 0x0F when the
group has at most 15 links and 0xFF otherwise. -/
def FwabfPolicyLinkGroup.precomputed (g : FwabfPolicyLinkGroup) : Prop :=
  g.n_links_minus_1 = g.links.length - 1 ∧
  g.n_links_pow2_mask = (if g.links.length ≤ 15 then 15 else 255)

/-- The internal fields of an action as `unformat_action` (fwabf_policy.c)
computes them, for the action itself and for each of its groups. -/
def FwabfPolicyAction.precomputed (a : FwabfPolicyAction) : Prop :=
  a.n_link_groups_minus_1 = a.link_groups.length - 1 ∧
  a.n_link_groups_pow2_mask = (if a.link_groups.length ≤ 15 then 15 else 255) ∧
  ∀ g ∈ a.link_groups, g.precomputed

instance (g : FwabfPolicyLinkGroup) : Decidable g.precomputed := by
  unfold FwabfPolicyLinkGroup.precomputed; infer_instance

instance (a : FwabfPolicyAction) : Decidable a.precomputed := by
  unfold FwabfPolicyAction.precomputed; infer_instance

/-- The `FWABF_GET_INDEX_BY_FLOWHASH` macro (fwabf_policy.c): mask the flow
hash with the pow2 mask; if the result exceeds `len - 1`, mask it again with
`len - 1`. -/
def FWABF_GET_INDEX_BY_FLOWHASH (flowhash pow2_mask n_minus_1 : Nat) : Nat :=
  let r := flowhash &&& pow2_mask
  if r ≤ n_minus_1 then r else r &&& n_minus_1

/-- The per-policy counters of `fwabf_policy_t`. -/
structure PolicyCounters where
  counter_matched : Nat
  counter_applied : Nat
  counter_fallback : Nat
  counter_dropped : Nat
  counter_default_route : Nat
deriving DecidableEq, Repr

/-- The `FWABF_POLICY_GET_DPO` macro (fwabf_policy.c): on a default-route FIB
result use the labeled link's own DPO, otherwise intersect the FIB result
with the labeled links. -/
def FWABF_POLICY_GET_DPO (fwlabel : Nat) (lb : LoadBalance) (proto : DpoProto)
    (is_default_route_lb : Bool) (s : LinksState) : DpoId × LinksState :=
  if is_default_route_lb then
    fwabf_links_get_labeled_dpo fwlabel s
  else
    fwabf_links_get_dpo fwlabel lb s

/-- The `vec_foreach (pfwlabel, group->links)` loops of
`fwabf_policy_get_dpo_ip4/ip6`: probe the labels in declared order and stop at
the first valid DPO.  The threaded `LinksState` accumulates the per-label hit
and miss counters of the probes. -/
def fwabf_policy_scan_labels (lb : LoadBalance) (proto : DpoProto)
    (is_default_route_lb : Bool) (s : LinksState) :
    List Nat → Option DpoId × LinksState
  | [] => (none, s)
  | l :: rest =>
    let r := FWABF_POLICY_GET_DPO l lb proto is_default_route_lb s
    if dpoIdIsValid r.1 then
      (some r.1, r.2)
    else
      fwabf_policy_scan_labels lb proto is_default_route_lb r.2 rest

/-- The body of the `vec_foreach (group, action->link_groups)` loop of
`fwabf_policy_get_dpo_ip4/ip6` for one group: a group with random link
selection and more than one link first probes the label picked by
`flow_hash & n_links_minus_1`, then both kinds of group fall through to the
ordered label scan. -/
def fwabf_policy_scan_one_group (lb : LoadBalance) (proto : DpoProto)
    (is_default_route_lb : Bool) (flow_hash : Nat) (s : LinksState)
    (g : FwabfPolicyLinkGroup) : Option DpoId × LinksState :=
  if g.alg = .random ∧ 1 < g.links.length then
    let fwlabel := g.links.getD (flow_hash &&& g.n_links_minus_1) 0
    let r := FWABF_POLICY_GET_DPO fwlabel lb proto is_default_route_lb s
    if dpoIdIsValid r.1 then
      (some r.1, r.2)
    else
      fwabf_policy_scan_labels lb proto is_default_route_lb r.2 g.links
  else
    fwabf_policy_scan_labels lb proto is_default_route_lb s g.links

/-- The `vec_foreach (group, action->link_groups)` loop of
`fwabf_policy_get_dpo_ip4/ip6`: scan the groups in declared order, each with
`fwabf_policy_scan_one_group`, and stop at the first valid DPO. -/
def fwabf_policy_scan_groups (lb : LoadBalance) (proto : DpoProto)
    (is_default_route_lb : Bool) (flow_hash : Nat) (s : LinksState) :
    List FwabfPolicyLinkGroup → Option DpoId × LinksState
  | [] => (none, s)
  | g :: rest =>
    match fwabf_policy_scan_one_group lb proto is_default_route_lb flow_hash s g with
    | (some d, s1) => (some d, s1)
    | (none, s1) => fwabf_policy_scan_groups lb proto is_default_route_lb flow_hash s1 rest

/-- Result of the embedded `fwabf_policy_get_dpo_ip4/ip6`: the returned u32
(1 = use the policy DPO, 0 = defer to the FIB result), the output `dpo`
(meaningful only when `use_policy_dpo = 1`; the model returns `DPO_INVALID`
where the C leaves the out-parameter at its last written or initial value),
the updated policy counters and the updated registry state. -/
structure PolicyGetDpoResult where
  use_policy_dpo : Nat
  dpo : DpoId
  counters : PolicyCounters
  links : LinksState

/-- The random group-selection prologue of `fwabf_policy_get_dpo_ip4/ip6`
(taken when the action selects groups randomly and has more than one group):
pick a group by flow hash, optionally probe a hash-picked label inside it,
then scan that group's labels in order. -/
def fwabf_policy_random_prologue (action : FwabfPolicyAction) (flow_hash : Nat)
    (lb : LoadBalance) (proto : DpoProto) (is_default_route_lb : Bool)
    (s : LinksState) : Option DpoId × LinksState :=
  let i := FWABF_GET_INDEX_BY_FLOWHASH flow_hash
             action.n_link_groups_pow2_mask action.n_link_groups_minus_1
  let group := action.link_groups.getD i groupDefault
  if group.alg = .random ∧ 1 < group.links.length then
    let j := FWABF_GET_INDEX_BY_FLOWHASH flow_hash
               group.n_links_pow2_mask group.n_links_minus_1
    let fwlabel := group.links.getD j 0
    let r := FWABF_POLICY_GET_DPO fwlabel lb proto is_default_route_lb s
    if dpoIdIsValid r.1 then
      (some r.1, r.2)
    else
      fwabf_policy_scan_labels lb proto is_default_route_lb r.2 group.links
  else
    fwabf_policy_scan_labels lb proto is_default_route_lb s group.links

/-- The common body of `fwabf_policy_get_dpo_ip4` and
`fwabf_policy_get_dpo_ip6` (fwabf_policy.c), which differ only in the flow
hash computation (here an input, since the hash is a function of the packet)
and in the protocol used for the drop DPO.  `flow_hash` is the value
`ip4_compute_flow_hash` / `ip6_compute_flow_hash` returns for the packet with
`IP_FLOW_HASH_DEFAULT`. -/
def fwabf_policy_get_dpo_body (p : PolicyCounters) (action : FwabfPolicyAction)
    (flow_hash : Nat) (lb : LoadBalance) (proto : DpoProto)
    (is_default_route_lb : Bool) (s : LinksState) : PolicyGetDpoResult :=
  let r1 :=
    if action.alg = .random ∧ 1 < action.link_groups.length then
      fwabf_policy_random_prologue action flow_hash lb proto is_default_route_lb s
    else
      (none, s)
  match r1 with
  | (some d, s1) =>
    ⟨1, d, { p with counter_applied := u32inc p.counter_applied }, s1⟩
  | (none, s1) =>
    let r2 := fwabf_policy_scan_groups lb proto is_default_route_lb flow_hash s1
                action.link_groups
    match r2 with
    | (some d, s2) =>
      ⟨1, d, { p with counter_applied := u32inc p.counter_applied }, s2⟩
    | (none, s2) =>
      match action.fallback with
      | .defaultRoute =>
        ⟨0, dpoInvalid, { p with counter_fallback := u32inc p.counter_fallback }, s2⟩
      | .drop =>
        ⟨1, drop_dpo_get proto, { p with counter_dropped := u32inc p.counter_dropped }, s2⟩

/-- `fwabf_policy_get_dpo_ip4` (fwabf_policy.c). -/
def fwabf_policy_get_dpo_ip4 (p : PolicyCounters) (action : FwabfPolicyAction)
    (flow_hash : Nat) (lb : LoadBalance) (is_default_route_lb : Bool)
    (s : LinksState) : PolicyGetDpoResult :=
  fwabf_policy_get_dpo_body p action flow_hash lb .ip4 is_default_route_lb s

/-- `fwabf_policy_get_dpo_ip6` (fwabf_policy.c). -/
def fwabf_policy_get_dpo_ip6 (p : PolicyCounters) (action : FwabfPolicyAction)
    (flow_hash : Nat) (lb : LoadBalance) (is_default_route_lb : Bool)
    (s : LinksState) : PolicyGetDpoResult :=
  fwabf_policy_get_dpo_body p action flow_hash lb .ip6 is_default_route_lb s

/-- A policy object (`fwabf_policy_t` of fwabf_policy.c): client id, ACL
index, action, reference counter and statistics counters. -/
structure FwabfPolicyT where
  id : Nat
  acl : Nat
  action : FwabfPolicyAction
  refCounter : Nat
  counters : PolicyCounters
deriving DecidableEq, Repr

/-- An attachment object (`fwabf_itf_attach_t`), restricted to the fields
`fwabf_itf_attach` writes: cached ACL index, policy pool index, RX interface
and priority. -/
structure FwabfItfAttachT where
  fia_acl : Nat
  fia_policy : Nat
  fia_sw_if_index : Nat
  fia_prio : Nat
deriving DecidableEq, Repr

/-- The two FIB protocols indexing the per-interface attachment vectors. -/
inductive FibProto where
  | ip4
  | ip6
deriving DecidableEq, Repr

/-- Pointwise update of a map keyed by a FIB protocol and an interface. -/
def updProtoFn {α : Type} (f : FibProto → Nat → α) (p : FibProto) (k : Nat) (v : α) :
    FibProto → Nat → α :=
  fun q n => if q = p ∧ n = k then v else f q n

/-- The index `pool_get` hands out on a VPP pool modelled as a list of
optional slots: the first free slot, or the index one past the end when the
pool is full (VPP reuses freed slots before growing the pool; the model picks
the lowest free slot, which is one admissible allocation order). -/
def poolFirstFree {α : Type} : List (Option α) → Nat
  | [] => 0
  | none :: _ => 0
  | some _ :: rest => poolFirstFree rest + 1

/-- Write a pool slot, growing the pool by one slot when the index is the
current length (the only out-of-range index the embedded operations use). -/
def poolWrite {α : Type} (pool : List (Option α)) (i : Nat) (v : Option α) :
    List (Option α) :=
  if i < pool.length then pool.set i v else pool ++ [v]

/-- The combined control-plane state: the policy pool and id database of
fwabf_policy.c and the attachment pool, attachment database, per-interface
attachment vectors and per-interface ACL lookup-context ids of
fwabf_itf_attach.c. -/
structure CtrlState where
  abf_policy_pool : List (Option FwabfPolicyT)
  abf_policy_db : Nat → Option Nat
  fwabf_itf_attach_pool : List (Option FwabfItfAttachT)
  fwabf_itf_attach_db : Nat → Nat → Option Nat
  fwabf_attach_per_itf : FibProto → Nat → List Nat
  fwabf_acl_lc_per_itf : FibProto → Nat → Option Nat

/-- Read a policy pool slot (`pool_elt_at_index`); the default is never
reached on the control paths the theorems exercise. -/
def poolPolicy (cs : CtrlState) (pi : Nat) : FwabfPolicyT :=
  (cs.abf_policy_pool.getD pi none).getD ⟨0, 0, ⟨.defaultRoute, .ordered, [], 0, 0⟩, 0, ⟨0,0,0,0,0⟩⟩

/-- `fwabf_policy_add` (fwabf_policy.c): allocate a policy for a fresh
policy id; fail with the duplicate error when the id is already present. -/
def fwabf_policy_add (cs : CtrlState) (policy_id acl_index : Nat)
    (action : FwabfPolicyAction) : RetCode × CtrlState :=
  match cs.abf_policy_db policy_id with
  | some _ => (.valueExist, cs)
  | none =>
    let pi := poolFirstFree cs.abf_policy_pool
    let p : FwabfPolicyT := ⟨policy_id, acl_index, action, 0, ⟨0, 0, 0, 0, 0⟩⟩
    (.ok, { cs with
              abf_policy_pool := poolWrite cs.abf_policy_pool pi (some p),
              abf_policy_db := updFn cs.abf_policy_db policy_id (some pi) })

/-- `fwabf_policy_delete` (fwabf_policy.c): fail with the invalid-value error
when the policy id is unknown and with the in-use error when the reference
counter is positive; otherwise remove the policy from the database and return
its pool slot.  (The transient reset of the action that precedes the pool
put is invisible in the final state because the slot is freed.) -/
def fwabf_policy_delete (cs : CtrlState) (policy_id : Nat) : RetCode × CtrlState :=
  match cs.abf_policy_db policy_id with
  | none => (.invalidValue, cs)
  | some pi =>
    let p := poolPolicy cs pi
    if 0 < p.refCounter then
      (.instanceInUse, cs)
    else
      (.ok, { cs with
                abf_policy_db := updFn cs.abf_policy_db policy_id none,
                abf_policy_pool := poolWrite cs.abf_policy_pool pi none })

/-- The sort key used by `fwabf_cmp_attach_for_sort` (fwabf_itf_attach.c):
the priority of the attachment at a pool index. -/
def fiaPrio (pool : List (Option FwabfItfAttachT)) (i : Nat) : Nat :=
  ((pool.getD i none).map FwabfItfAttachT.fia_prio).getD 0

/-- `fwabf_cmp_attach_for_sort` (fwabf_itf_attach.c): the comparator handed
to `vec_sort_with_function`, applied to two attachment pool indices.  The C
body returns `fia1->fia_prio - fia2->fia_prio`: the subtraction is computed
on the `u32` operands (modulo 2^32) and the result is truncated to the
signed 32-bit `int` return type, so the comparison wraps (and inverts) when
the two priorities differ by 2^31 or more. -/
def fwabf_cmp_attach_for_sort (pool : List (Option FwabfItfAttachT))
    (i1 i2 : Nat) : Int :=
  let d := (fiaPrio pool i1 % 4294967296 + 4294967296 - fiaPrio pool i2 % 4294967296)
    % 4294967296
  if d < 2147483648 then (d : Int) else (d : Int) - 4294967296

/-- Insert a pool index into an index list at the first position where
`fwabf_cmp_attach_for_sort` reports it not-after the current element
(helper of the model of `vec_sort_with_function`). -/
def insertByPrio (pool : List (Option FwabfItfAttachT)) (x : Nat) :
    List Nat → List Nat
  | [] => [x]
  | y :: rest =>
    if fwabf_cmp_attach_for_sort pool x y ≤ 0 then x :: y :: rest
    else y :: insertByPrio pool x rest

/-- Model of `vec_sort_with_function (.., fwabf_cmp_attach_for_sort)`:
insertion sort of the per-interface attachment index vector under the
comparator.  The C library sort realizes some order in which consecutive
elements compare non-positively; insertion sort is one such order, and on
the two-element vectors the concrete theorems evaluate it is the only one. -/
def sortByPrio (pool : List (Option FwabfItfAttachT)) : List Nat → List Nat
  | [] => []
  | x :: rest => insertByPrio pool x (sortByPrio pool rest)

/-- `fwabf_itf_attach` (fwabf_itf_attach.c): attach a policy to an RX
interface at a priority.  The policy's reference counter is incremented
first; a duplicate (policy, interface) registration is then reported without
any further mutation.  Otherwise the attachment is allocated, recorded in the
database and added to the per-(protocol, interface) vector, which is sorted
by priority when it holds more than one attachment; on the first attachment
the feature arc is enabled externally and the ACL lookup context `new_lc`
(returned by the ACL plugin) is stored. -/
def fwabf_itf_attach (cs : CtrlState) (fproto : FibProto)
    (policy_id priority sw_if_index new_lc : Nat) : RetCode × CtrlState :=
  match cs.abf_policy_db policy_id with
  | none => (.assertFailure, cs)
  | some pi =>
    let p := poolPolicy cs pi
    let cs1 := { cs with
      abf_policy_pool :=
        poolWrite cs.abf_policy_pool pi (some { p with refCounter := u32inc p.refCounter }) }
    match cs.fwabf_itf_attach_db policy_id sw_if_index with
    | some _ => (.entryAlreadyExists, cs1)
    | none =>
      let fiaIdx := poolFirstFree cs1.fwabf_itf_attach_pool
      let fia : FwabfItfAttachT := ⟨p.acl, pi, sw_if_index, priority⟩
      let pool1 := poolWrite cs1.fwabf_itf_attach_pool fiaIdx (some fia)
      let lst := cs1.fwabf_attach_per_itf fproto sw_if_index ++ [fiaIdx]
      let cs2 := { cs1 with
        fwabf_itf_attach_pool := pool1,
        fwabf_itf_attach_db := updFn2 cs1.fwabf_itf_attach_db policy_id sw_if_index (some fiaIdx) }
      if lst.length = 1 then
        (.ok, { cs2 with
                  fwabf_attach_per_itf := updProtoFn cs2.fwabf_attach_per_itf fproto sw_if_index lst,
                  fwabf_acl_lc_per_itf :=
                    updProtoFn cs2.fwabf_acl_lc_per_itf fproto sw_if_index (some new_lc) })
      else
        (.ok, { cs2 with
                  fwabf_attach_per_itf :=
                    updProtoFn cs2.fwabf_attach_per_itf fproto sw_if_index (sortByPrio pool1 lst) })

/-- Modelled from the spec: vppinfra's `vec_del1` macro, which
`fwabf_itf_detach` uses to drop the attachment index found by `vec_search`
from the per-(interface, family) vector, is not part of the provided sources.
Per the spec, detach removes the attachment from the per-(interface, family)
list sorted by ascending priority; the removal is modelled as the
order-preserving deletion of the first occurrence of the index. -/
def vecDelAttachIndex (lst : List Nat) (fiaIdx : Nat) : List Nat :=
  lst.erase fiaIdx

/-- `fwabf_itf_detach` (fwabf_itf_attach.c): detach a policy from an RX
interface.  An unknown attachment is reported without mutation (the C code
reuses the already-exists error value for it).  Otherwise the policy's
reference counter is decremented, the index is removed from the
per-(protocol, interface) vector, the ACL context is released when the
vector empties, and the attachment is removed from the database and its pool
slot freed. -/
def fwabf_itf_detach (cs : CtrlState) (fproto : FibProto)
    (policy_id sw_if_index : Nat) : RetCode × CtrlState :=
  match cs.fwabf_itf_attach_db policy_id sw_if_index with
  | none => (.entryAlreadyExists, cs)
  | some fiaIdx =>
    match cs.abf_policy_db policy_id with
    | none => (.assertFailure, cs)
    | some pi =>
      let p := poolPolicy cs pi
      let cs1 := { cs with
        abf_policy_pool :=
          poolWrite cs.abf_policy_pool pi (some { p with refCounter := u32dec p.refCounter }) }
      let lst1 := vecDelAttachIndex (cs1.fwabf_attach_per_itf fproto sw_if_index) fiaIdx
      let cs2 := { cs1 with
        fwabf_attach_per_itf := updProtoFn cs1.fwabf_attach_per_itf fproto sw_if_index lst1 }
      let cs3 :=
        if lst1.length = 0 then
          { cs2 with
              fwabf_acl_lc_per_itf := updProtoFn cs2.fwabf_acl_lc_per_itf fproto sw_if_index none }
        else
          cs2
      (.ok, { cs3 with
                fwabf_itf_attach_db := updFn2 cs3.fwabf_itf_attach_db policy_id sw_if_index none,
                fwabf_itf_attach_pool := poolWrite cs3.fwabf_itf_attach_pool fiaIdx none })

/-- The flow-hash-to-index mapping for a vector of `g` groups (or labels):
the `FWABF_GET_INDEX_BY_FLOWHASH` macro (fwabf_policy.c) applied to the
fields `unformat_action` pre-computes for a vector of length `g`
(`n_minus_1 = g - 1`, pow2 mask 0x0F when `g ≤ 15` and 0xFF otherwise). -/
def fwabf_flowhash_index (g flow_hash : Nat) : Nat :=
  FWABF_GET_INDEX_BY_FLOWHASH flow_hash (if g ≤ 15 then 15 else 255) (g - 1)

/-- Number of naturals below `n` that `f` maps to `j` (the preimage count
used to state the distribution property of `fwabf_flowhash_index`). -/
def countPreimages (f : Nat → Nat) (j : Nat) : Nat → Nat
  | 0 => 0
  | n + 1 => countPreimages f j n + (if f n = j then 1 else 0)

/-- The admin-map invariant of the spec data model: for every live Link, the
admin adjacency→label map at the adjacency of the Link's cached forwarding
descriptor holds the Link's label. -/
def adminMapInvariant (s : LinksState) : Prop :=
  ∀ i < s.fwabf_links.length,
    (s.fwabf_links.getD i linkFresh).sw_if_index ≠ INDEX_INVALID →
    s.adj_indexes_to_labels (s.fwabf_links.getD i linkFresh).dpo.dpoiIndex =
      (s.fwabf_links.getD i linkFresh).fwlabel

instance (s : LinksState) : Decidable (adminMapInvariant s) := by
  unfold adminMapInvariant; infer_instance

/-- Every live Link carries a label in the valid range (established by the
range check of `fwabf_links_add_interface`). -/
def liveLabelsValid (s : LinksState) : Prop :=
  ∀ i < s.fwabf_links.length,
    (s.fwabf_links.getD i linkFresh).sw_if_index ≠ INDEX_INVALID →
    (s.fwabf_links.getD i linkFresh).fwlabel ≤ FWABF_MAX_LABEL

instance (s : LinksState) : Decidable (liveLabelsValid s) := by
  unfold liveLabelsValid; infer_instance

/-- A concrete registry state with one live link: interface 1, label 7,
cached DPO on adjacency 5, reachable and administratively mapped. -/
def linksStateOneLive : LinksState :=
  ⟨[linkFresh, ⟨1, 7, ⟨.adjacency, 5⟩, 0⟩],
   fun l => if l = 7 then ⟨1, 0, 0, 0, 0⟩ else ⟨INDEX_INVALID, 0, 0, 0, 0⟩,
   fun a => if a = 5 then 7 else FWABF_INVALID_LABEL,
   fun a => if a = 5 then 7 else FWABF_INVALID_LABEL⟩

/-- A concrete registry state with one live link (interface 0, label 7) whose
cached DPO is on adjacency 2, while the admin map holds a stale valid label 3
at adjacency 5 (left behind, e.g., by an earlier link whose deletion cleared
a different slot). -/
def linksStateStaleAdmin : LinksState :=
  ⟨[⟨0, 7, ⟨.adjacency, 2⟩, 0⟩],
   fun l => if l = 7 then ⟨0, 0, 0, 0, 0⟩ else ⟨INDEX_INVALID, 0, 0, 0, 0⟩,
   fun a => if a = 2 then 7 else if a = 5 then 3 else FWABF_INVALID_LABEL,
   fun a => if a = 2 then 7 else FWABF_INVALID_LABEL⟩


/-- The bucket predicate of the label-to-DPO intersection: the bucket's
adjacency maps to the label in the reachable map. -/
def bucketMatches (s : LinksState) (fwlabel : Nat) (d : DpoId) : Bool :=
  s.adj_indexes_to_reachable_labels d.dpoiIndex == fwlabel

/-- The configuration core of a registry state: everything except the
statistics counters.  Two states with equal cores produce the same DPO from
every probe; the probes mutate only the counters. -/
def coreEq (s t : LinksState) : Prop :=
  s.fwabf_links = t.fwabf_links ∧
  (∀ k, (s.fwabf_labels k).sw_if_index = (t.fwabf_labels k).sw_if_index) ∧
  s.adj_indexes_to_labels = t.adj_indexes_to_labels ∧
  s.adj_indexes_to_reachable_labels = t.adj_indexes_to_reachable_labels

/-- The labels of a list of groups in declared group-then-label order (the
flattening used to state the ordered-scan properties). -/
def actionLabels : List FwabfPolicyLinkGroup → List Nat
  | [] => []
  | g :: rest => g.links ++ actionLabels rest

/-- Zeroed policy counters. -/
def pc0 : PolicyCounters := ⟨0, 0, 0, 0, 0⟩

/-- A concrete all-ordered action: fallback default-route, one group with the
single label 7 (pre-computed fields as `unformat_action` builds them). -/
def actionOrdered7 : FwabfPolicyAction :=
  ⟨.defaultRoute, .ordered, [⟨.ordered, [7], 0, 15⟩], 0, 15⟩

/-- A concrete all-ordered action over labels that resolve to nothing in
`linksStateOneLive`: fallback drop, one group with labels 1 and 2. -/
def actionDrop12 : FwabfPolicyAction :=
  ⟨.drop, .ordered, [⟨.ordered, [1, 2], 1, 15⟩], 0, 15⟩

/-- A concrete single-bucket FIB result on adjacency 5. -/
def lbAdj5 : LoadBalance := ⟨[⟨.adjacency, 5⟩]⟩

/-- A control-plane state with one policy (id 5 at pool slot 0, reference
counter 1 from one attachment) and that attachment (policy 5 on interface 1,
priority 10, pool slot 0, IPv4). -/
def ctrlStateOneAttach : CtrlState :=
  ⟨[some ⟨5, 1, actionOrdered7, 1, pc0⟩],
   fun pid => if pid = 5 then some 0 else none,
   [some ⟨1, 0, 1, 10⟩],
   fun pid sw => if pid = 5 ∧ sw = 1 then some 0 else none,
   fun pr sw => if pr = .ip4 ∧ sw = 1 then [0] else [],
   fun pr sw => if pr = .ip4 ∧ sw = 1 then some 7 else none⟩

/-- A control-plane state with one policy (id 5 at pool slot 0, reference
counter 0) and no attachments. -/
def ctrlStateOnePolicy : CtrlState :=
  ⟨[some ⟨5, 1, actionOrdered7, 0, pc0⟩],
   fun pid => if pid = 5 then some 0 else none,
   [],
   fun _ _ => none,
   fun _ _ => [],
   fun _ _ => none⟩

/-- A control-plane state with two policies (ids 5 and 6 at pool slots 0 and
1, reference counters 0) and no attachments. -/
def ctrlStateTwoPolicies : CtrlState :=
  ⟨[some ⟨5, 1, actionOrdered7, 0, pc0⟩, some ⟨6, 1, actionOrdered7, 0, pc0⟩],
   fun pid => if pid = 5 then some 0 else if pid = 6 then some 1 else none,
   [],
   fun _ _ => none,
   fun _ _ => [],
   fun _ _ => none⟩

/-- The state reached from `ctrlStateTwoPolicies` by attaching policy 5 at
priority 3000000000 and then policy 6 at priority 0, both to IPv4 interface
1.  The second attach sorts the two-element index vector with
`fwabf_cmp_attach_for_sort`, whose wrapped subtraction reports priority
3000000000 as "not after" priority 0. -/
def c8AttachState : CtrlState :=
  (fwabf_itf_attach
    (fwabf_itf_attach ctrlStateTwoPolicies .ip4 5 3000000000 1 9).2
    .ip4 6 0 1 9).2

/-- A per-(interface, family) attachment index list is sorted by ascending
priority with respect to an attachment pool. -/
def attachListSorted (pool : List (Option FwabfItfAttachT)) (l : List Nat) : Prop :=
  l.Pairwise (fun a b => fiaPrio pool a ≤ fiaPrio pool b)

/-! ## Theorems -/

theorem links_get_dpo_loop_find (fwlabel : Nat) (s : LinksState) (l : List DpoId) :
    (fwabf_links_get_dpo_loop fwlabel s l).1 =
      (l.find? (bucketMatches s fwlabel)).getD dpoInvalid := by
  induction l with
  | nil => simp [fwabf_links_get_dpo_loop]
  | cons d rest ih =>
    by_cases h : s.adj_indexes_to_reachable_labels d.dpoiIndex = fwlabel
    · simp [fwabf_links_get_dpo_loop, h, List.find?, bucketMatches]
    · simp only [fwabf_links_get_dpo_loop, if_neg h]
      rw [ih]
      have hb : bucketMatches s fwlabel d = false := by
        simp [bucketMatches, h]
      simp [List.find?, hb]


/-- C1: for every label and every FIB load-balance result, the label-to-DPO
resolution `fwabf_links_get_dpo` returns the first bucket in declared order
whose adjacency maps to the label in the reachable map (for a single final
DPO, that DPO exactly when its reachable-map entry equals the label), and an
invalid DPO when no bucket's adjacency maps to the label. -/
theorem C1_fwabf_links_get_dpo_first_match (fwlabel : Nat) (lb : LoadBalance)
    (s : LinksState) :
    (fwabf_links_get_dpo fwlabel lb s).1 =
      (lb.lb_buckets.find? (bucketMatches s fwlabel)).getD dpoInvalid ∧
    (∀ d, lb.lb_buckets = [d] →
      (fwabf_links_get_dpo fwlabel lb s).1 =
        (if s.adj_indexes_to_reachable_labels d.dpoiIndex = fwlabel then d else dpoInvalid)) ∧
    ((∀ d ∈ lb.lb_buckets, s.adj_indexes_to_reachable_labels d.dpoiIndex ≠ fwlabel) →
      (fwabf_links_get_dpo fwlabel lb s).1 = dpoInvalid) := by
  have hmain : (fwabf_links_get_dpo fwlabel lb s).1 =
      (lb.lb_buckets.find? (bucketMatches s fwlabel)).getD dpoInvalid := by
    unfold fwabf_links_get_dpo
    by_cases h1 : lb.lb_n_buckets = 1
    · obtain ⟨d, hd⟩ : ∃ d, lb.lb_buckets = [d] := by
        unfold LoadBalance.lb_n_buckets at h1
        match hbk : lb.lb_buckets with
        | [d] => exact ⟨d, rfl⟩
        | [] => rw [hbk] at h1; simp at h1
        | a :: b :: t => rw [hbk] at h1; simp at h1
      by_cases h2 : s.adj_indexes_to_reachable_labels
          (load_balance_get_bucket_i lb 0).dpoiIndex = fwlabel
      · have hd2 : s.adj_indexes_to_reachable_labels d.dpoiIndex = fwlabel := by
          simpa [load_balance_get_bucket_i, hd, List.getD_cons_zero] using h2
        have : bucketMatches s fwlabel d = true := by
          simp [bucketMatches, hd2]
        simp [h1, h2, hd, List.find?, this, hd2, load_balance_get_bucket_i]
      · have hd2 : ¬ s.adj_indexes_to_reachable_labels d.dpoiIndex = fwlabel := by
          simpa [load_balance_get_bucket_i, hd, List.getD_cons_zero] using h2
        have : bucketMatches s fwlabel d = false := by
          simp [bucketMatches, hd2]
        simp [h1, h2, hd, List.find?, this, hd2]
    · simp only [if_neg h1]
      exact links_get_dpo_loop_find fwlabel s lb.lb_buckets
  refine ⟨hmain, ?_, ?_⟩
  · intro d hd
    rw [hmain, hd]
    by_cases h2 : s.adj_indexes_to_reachable_labels d.dpoiIndex = fwlabel
    · have : bucketMatches s fwlabel d = true := by simp [bucketMatches, h2]
      simp [List.find?, this, h2]
    · have : bucketMatches s fwlabel d = false := by simp [bucketMatches, h2]
      simp [List.find?, this, h2]
  · intro hall
    rw [hmain]
    have : lb.lb_buckets.find? (bucketMatches s fwlabel) = none := by
      apply List.find?_eq_none.mpr
      intro d hd
      have := hall d hd
      simp [bucketMatches, this]
    simp [this]

/-- Witness for C1 at a concrete two-bucket ECMP result: the second bucket is
the first whose adjacency maps to label 7. -/
theorem C1_witness :
    (fwabf_links_get_dpo 7
      ⟨[⟨.adjacency, 3⟩, ⟨.adjacency, 5⟩]⟩
      ⟨[], fun _ => ⟨INDEX_INVALID, 0, 0, 0, 0⟩,
        fun _ => FWABF_INVALID_LABEL,
        fun a => if a = 5 then 7 else FWABF_INVALID_LABEL⟩).1 = ⟨.adjacency, 5⟩ := by
  have h := (C1_fwabf_links_get_dpo_first_match 7
      ⟨[⟨.adjacency, 3⟩, ⟨.adjacency, 5⟩]⟩
      ⟨[], fun _ => ⟨INDEX_INVALID, 0, 0, 0, 0⟩,
        fun _ => FWABF_INVALID_LABEL,
        fun a => if a = 5 then 7 else FWABF_INVALID_LABEL⟩).1
  rw [h]
  rfl

theorem getD_set_self {α : Type} (l : List α) (i : Nat) (a d : α) (h : i < l.length) :
    (l.set i a).getD i d = a := by
  induction l generalizing i with
  | nil => simp at h
  | cons x xs ih =>
    cases i with
    | zero => simp [List.set, List.getD]
    | succ n =>
      simp only [List.set, List.getD_cons_succ]
      exact ih n (by simpa using h)

theorem getD_set_ne {α : Type} (l : List α) (i j : Nat) (a d : α) (h : j ≠ i) :
    (l.set i a).getD j d = l.getD j d := by
  induction l generalizing i j with
  | nil => simp [List.set]
  | cons x xs ih =>
    cases i with
    | zero =>
      cases j with
      | zero => exact absurd rfl h
      | succ m => simp [List.set]
    | succ n =>
      cases j with
      | zero => simp [List.set]
      | succ m =>
        simp only [List.set, List.getD_cons_succ]
        exact ih n m (fun hc => h (by rw [hc]))

/-- C9: a `link_add` with a label of 255 or more fails with the out-of-range
error and leaves the registry state untouched (no Link allocated, no label
index entry, no adjacency map change); a label of at most 254 never triggers
that error. -/
theorem C9_fwabf_links_add_interface_label_range (s : LinksState)
    (sw fwlabel : Nat) (new_dpo : DpoId) :
    (FWABF_INVALID_LABEL ≤ fwlabel →
      fwabf_links_add_interface s sw fwlabel new_dpo = (.invalidArgument, s)) ∧
    (fwlabel ≤ FWABF_MAX_LABEL →
      (fwabf_links_add_interface s sw fwlabel new_dpo).1 ≠ .invalidArgument) := by
  constructor
  · intro h
    unfold fwabf_links_add_interface
    rw [if_pos h]
  · intro h
    have hlt : ¬ FWABF_INVALID_LABEL ≤ fwlabel := by
      unfold FWABF_INVALID_LABEL
      unfold FWABF_MAX_LABEL at h
      omega
    unfold fwabf_links_add_interface
    rw [if_neg hlt]
    dsimp only
    split <;> (split <;> (intro hc; exact RetCode.noConfusion hc))

/-- Witness for C9: at label 255 the registry state is returned unchanged
with the out-of-range error, and label 254 does not trigger that error. -/
theorem C9_witness :
    (FWABF_INVALID_LABEL ≤ 255 ∧
      fwabf_links_add_interface linksStateOneLive 4 255 ⟨.adjacency, 9⟩ =
        (.invalidArgument, linksStateOneLive)) ∧
    ((254 : Nat) ≤ FWABF_MAX_LABEL ∧
      (fwabf_links_add_interface linksStateOneLive 4 254 ⟨.adjacency, 9⟩).1 ≠
        .invalidArgument) :=
  ⟨⟨le_refl _,
    (C9_fwabf_links_add_interface_label_range linksStateOneLive 4 255 ⟨.adjacency, 9⟩).1
      (le_refl _)⟩,
   ⟨le_refl _,
    (C9_fwabf_links_add_interface_label_range linksStateOneLive 4 254 ⟨.adjacency, 9⟩).2
      (le_refl _)⟩⟩

theorem updFn_self {α : Type} (f : Nat → α) (k : Nat) (v : α) : updFn f k v k = v := by
  simp [updFn]

theorem updFn_ne {α : Type} (f : Nat → α) (k n : Nat) (v : α) (h : n ≠ k) :
    updFn f k v n = f n := by
  simp [updFn, h]

/-- C4 counterexample: in a state with one live link (interface 1, label 7,
adjacency 5), `fwabf_links_del_interface 1` leaves the reachable map entry of
adjacency 5 at label 7 instead of clearing it to the invalid sentinel, so the
claim that both maps hold the invalid sentinel after `link_del` is false. -/
theorem C4_counterexample :
    (fwabf_links_del_interface linksStateOneLive 1).2.adj_indexes_to_reachable_labels 5 = 7 ∧
    (7 : Nat) ≠ FWABF_INVALID_LABEL := by
  constructor
  · rfl
  · decide

/-- C4 (amended): `link_del` on an unknown interface returns ok and changes
nothing.  On a registered Link it returns ok, performs the slot invalidation
first (the invalidation step changes nothing but the Link slot), and in the
final state the admin map entry of the Link's cached adjacency holds the
invalid sentinel, the label→interface mapping is removed and the Link slot is
invalid — but the reachable map is left entirely unchanged (it is not
cleared, contrary to the original claim). -/
theorem C4_amended_fwabf_links_del_interface (s : LinksState) (sw : Nat) :
    (FWABF_SW_INTERFACE_IS_INVALID s sw → fwabf_links_del_interface s sw = (.ok, s)) ∧
    (¬ FWABF_SW_INTERFACE_IS_INVALID s sw →
      (fwabf_links_del_interface s sw).1 = .ok ∧
      (fwabf_links_del_interface s sw).2 =
        fwabf_links_del_rest (fwabf_links_del_invalidate s sw) sw
          (s.fwabf_links.getD sw linkFresh).fwlabel (s.fwabf_links.getD sw linkFresh).dpo ∧
      (fwabf_links_del_invalidate s sw).fwabf_labels = s.fwabf_labels ∧
      (fwabf_links_del_invalidate s sw).adj_indexes_to_labels = s.adj_indexes_to_labels ∧
      (fwabf_links_del_invalidate s sw).adj_indexes_to_reachable_labels =
        s.adj_indexes_to_reachable_labels ∧
      ((fwabf_links_del_invalidate s sw).fwabf_links.getD sw linkFresh).sw_if_index =
        INDEX_INVALID ∧
      ((s.fwabf_links.getD sw linkFresh).dpo.dpoiIndex ≠ INDEX_INVALID →
        (fwabf_links_del_interface s sw).2.adj_indexes_to_labels
          (s.fwabf_links.getD sw linkFresh).dpo.dpoiIndex = FWABF_INVALID_LABEL) ∧
      ((fwabf_links_del_interface s sw).2.fwabf_labels
          (s.fwabf_links.getD sw linkFresh).fwlabel).sw_if_index = INDEX_INVALID ∧
      ((fwabf_links_del_interface s sw).2.fwabf_links.getD sw linkFresh).sw_if_index =
        INDEX_INVALID ∧
      (fwabf_links_del_interface s sw).2.adj_indexes_to_reachable_labels =
        s.adj_indexes_to_reachable_labels) := by
  constructor
  · intro h
    unfold fwabf_links_del_interface
    rw [if_pos h]
  · intro h
    have hsw : sw < s.fwabf_links.length := by
      unfold FWABF_SW_INTERFACE_IS_INVALID at h
      push_neg at h
      omega
    have hdel : fwabf_links_del_interface s sw =
        (.ok, fwabf_links_del_rest (fwabf_links_del_invalidate s sw) sw
          (s.fwabf_links.getD sw linkFresh).fwlabel (s.fwabf_links.getD sw linkFresh).dpo) := by
      unfold fwabf_links_del_interface
      rw [if_neg h]
    refine ⟨by rw [hdel], by rw [hdel], rfl, rfl, rfl, ?_, ?_, ?_, ?_, ?_⟩
    · unfold fwabf_links_del_invalidate
      exact congrArg FwabfLinkT.sw_if_index (getD_set_self _ _ _ _ hsw)
    · intro hidx
      rw [hdel]
      unfold fwabf_links_del_rest
      dsimp only
      rw [if_pos hidx]
      exact updFn_self _ _ _
    · rw [hdel]
      unfold fwabf_links_del_rest
      dsimp only
      rw [updFn_self]
    · rw [hdel]
      unfold fwabf_links_del_rest
      dsimp only
      have hlen : sw < (fwabf_links_del_invalidate s sw).fwabf_links.length := by
        unfold fwabf_links_del_invalidate
        simpa using hsw
      rw [getD_set_self _ _ _ _ hlen]
      dsimp only
      unfold fwabf_links_del_invalidate
      dsimp only
      exact congrArg FwabfLinkT.sw_if_index (getD_set_self _ _ _ _ hsw)
    · rw [hdel]
      rfl

/-- Witness for C4 (amended) at the concrete one-live-link state: interface 1
is registered, its deletion returns ok and removes the label→interface
mapping for label 7. -/
theorem C4_witness :
    ¬ FWABF_SW_INTERFACE_IS_INVALID linksStateOneLive 1 ∧
    (fwabf_links_del_interface linksStateOneLive 1).1 = .ok ∧
    ((fwabf_links_del_interface linksStateOneLive 1).2.fwabf_labels 7).sw_if_index =
      INDEX_INVALID :=
  ⟨by decide,
   ((C4_amended_fwabf_links_del_interface linksStateOneLive 1).2 (by decide)).1,
   ((C4_amended_fwabf_links_del_interface linksStateOneLive 1).2 (by decide)).2.2.2.2.2.2.2.1⟩

theorem getD_append_left {α : Type} (l1 l2 : List α) (i : Nat) (d : α)
    (h : i < l1.length) : (l1 ++ l2).getD i d = l1.getD i d := by
  induction l1 generalizing i with
  | nil => simp at h
  | cons x xs ih =>
    cases i with
    | zero => simp
    | succ n =>
      simp only [List.cons_append, List.getD_cons_succ]
      exact ih n (by simpa using h)

theorem getD_append_right {α : Type} (l1 l2 : List α) (i : Nat) (d : α)
    (h : l1.length ≤ i) : (l1 ++ l2).getD i d = l2.getD (i - l1.length) d := by
  induction l1 generalizing i with
  | nil => simp
  | cons x xs ih =>
    cases i with
    | zero => simp at h
    | succ n =>
      simp only [List.cons_append, List.getD_cons_succ, List.length_cons]
      rw [ih n (by simpa using h)]
      congr 1
      omega

theorem getD_replicate {α : Type} (n i : Nat) (a d : α) (h : i < n) :
    (List.replicate n a).getD i d = a := by
  induction n generalizing i with
  | zero => omega
  | succ m ih =>
    cases i with
    | zero => simp [List.replicate]
    | succ k =>
      simp only [List.replicate, List.getD_cons_succ]
      exact ih k (by omega)

/-- Core argument behind the amended C7: the back-walk refresh re-establishes
the admin-map invariant for the refreshed slot and preserves it for all other
live Links, provided the admin entry at the new adjacency previously held the
invalid sentinel or the refreshed slot's own label. -/
theorem refresh_adminInv (s : LinksState) (sw : Nat) (nd : DpoId)
    (hothers : ∀ j < s.fwabf_links.length, j ≠ sw →
      (s.fwabf_links.getD j linkFresh).sw_if_index ≠ INDEX_INVALID →
      s.adj_indexes_to_labels (s.fwabf_links.getD j linkFresh).dpo.dpoiIndex =
        (s.fwabf_links.getD j linkFresh).fwlabel)
    (hlab : liveLabelsValid s)
    (hadm : s.adj_indexes_to_labels nd.dpoiIndex = FWABF_INVALID_LABEL ∨
            s.adj_indexes_to_labels nd.dpoiIndex = (s.fwabf_links.getD sw linkFresh).fwlabel) :
    adminMapInvariant (fwabf_link_refresh_dpo s sw nd) := by
  intro j hj hlive
  set link := s.fwabf_links.getD sw linkFresh with hlink
  have hjlen : j < s.fwabf_links.length := by
    simpa [fwabf_link_refresh_dpo] using hj
  have hentry : (fwabf_link_refresh_dpo s sw nd).fwabf_links.getD j linkFresh =
      (if j = sw then { link with dpo := nd } else s.fwabf_links.getD j linkFresh) := by
    unfold fwabf_link_refresh_dpo
    dsimp only
    by_cases hjs : j = sw
    · subst hjs
      rw [if_pos rfl]
      exact getD_set_self _ _ _ _ hjlen
    · rw [if_neg hjs]
      exact getD_set_ne _ _ _ _ _ hjs
  have hadmin : (fwabf_link_refresh_dpo s sw nd).adj_indexes_to_labels =
      (if s.adj_indexes_to_labels nd.dpoiIndex = FWABF_INVALID_LABEL
       then updFn s.adj_indexes_to_labels nd.dpoiIndex link.fwlabel
       else s.adj_indexes_to_labels) := by
    unfold fwabf_link_refresh_dpo
    dsimp only
  rw [hentry] at hlive ⊢
  rw [hadmin]
  by_cases hjs : j = sw
  · rw [if_pos hjs] at hlive ⊢
    dsimp only
    rcases hadm with h255 | hsame
    · rw [if_pos h255, updFn_self]
    · by_cases hcase : s.adj_indexes_to_labels nd.dpoiIndex = FWABF_INVALID_LABEL
      · rw [if_pos hcase, updFn_self]
      · rw [if_neg hcase]
        exact hsame
  · rw [if_neg hjs] at hlive ⊢
    have hj0 := hothers j hjlen hjs hlive
    by_cases hcase : s.adj_indexes_to_labels nd.dpoiIndex = FWABF_INVALID_LABEL
    · rw [if_pos hcase]
      by_cases hidx : (s.fwabf_links.getD j linkFresh).dpo.dpoiIndex = nd.dpoiIndex
      · exfalso
        rw [hidx] at hj0
        rw [hcase] at hj0
        have := hlab j hjlen hlive
        rw [← hj0] at this
        unfold FWABF_INVALID_LABEL FWABF_MAX_LABEL at this
        omega
      · rw [updFn_ne _ _ _ _ hidx]
        exact hj0
    · rw [if_neg hcase]
      exact hj0

/-- C7 counterexample: in a state satisfying the admin-map invariant whose
admin map holds a stale valid label 3 at adjacency 5, a back-walk refresh
that moves the live link (label 7) onto adjacency 5 does not set the admin
entry to 7 — the write is conditional on the entry being invalid — and the
invariant is broken afterwards, refuting both the unconditional-write clause
and unconditional preservation. -/
theorem C7_counterexample :
    adminMapInvariant linksStateStaleAdmin ∧
    (fwabf_link_refresh_dpo linksStateStaleAdmin 0 ⟨.adjacency, 5⟩).adj_indexes_to_labels 5 ≠ 7 ∧
    ¬ adminMapInvariant (fwabf_link_refresh_dpo linksStateStaleAdmin 0 ⟨.adjacency, 5⟩) := by
  refine ⟨?_, ?_, ?_⟩
  · decide
  · decide
  · decide

/-- C7 (amended): the Link Registry maintains the admin-map invariant in the
following conditional form.  (a) A back-walk refresh writes the admin entry
of the Link's new adjacency only when that entry currently holds the invalid
sentinel — not unconditionally.  (b) The refresh re-establishes the invariant
provided the admin entry at the new adjacency previously held the invalid
sentinel or the Link's own label.  (c) `link_del` preserves the invariant
provided no other live Link shares the deleted Link's cached adjacency.
(d) `link_add` preserves the invariant under the same proviso as (b) for the
adjacency of the contributed DPO. -/
theorem C7_amended_admin_map (s : LinksState) (sw fwlabel : Nat) (nd : DpoId) :
    ((fwabf_link_refresh_dpo s sw nd).adj_indexes_to_labels =
      if s.adj_indexes_to_labels nd.dpoiIndex = FWABF_INVALID_LABEL
      then updFn s.adj_indexes_to_labels nd.dpoiIndex (s.fwabf_links.getD sw linkFresh).fwlabel
      else s.adj_indexes_to_labels) ∧
    (adminMapInvariant s → liveLabelsValid s →
      (s.adj_indexes_to_labels nd.dpoiIndex = FWABF_INVALID_LABEL ∨
       s.adj_indexes_to_labels nd.dpoiIndex = (s.fwabf_links.getD sw linkFresh).fwlabel) →
      adminMapInvariant (fwabf_link_refresh_dpo s sw nd)) ∧
    (adminMapInvariant s →
      (∀ j < s.fwabf_links.length, j ≠ sw →
        (s.fwabf_links.getD j linkFresh).sw_if_index ≠ INDEX_INVALID →
        (s.fwabf_links.getD j linkFresh).dpo.dpoiIndex ≠
          (s.fwabf_links.getD sw linkFresh).dpo.dpoiIndex) →
      adminMapInvariant (fwabf_links_del_interface s sw).2) ∧
    (adminMapInvariant s → liveLabelsValid s →
      (s.adj_indexes_to_labels nd.dpoiIndex = FWABF_INVALID_LABEL ∨
       s.adj_indexes_to_labels nd.dpoiIndex = fwlabel) →
      adminMapInvariant (fwabf_links_add_interface s sw fwlabel nd).2) := by
  refine ⟨?_, ?_, ?_, ?_⟩
  · unfold fwabf_link_refresh_dpo
    dsimp only
  · intro hinv hlab hadm
    exact refresh_adminInv s sw nd (fun j hj _ hl => hinv j hj hl) hlab hadm
  · intro hinv huniq
    unfold fwabf_links_del_interface
    by_cases hval : FWABF_SW_INTERFACE_IS_INVALID s sw
    · rw [if_pos hval]
      exact hinv
    · rw [if_neg hval]
      have hsw : sw < s.fwabf_links.length := by
        unfold FWABF_SW_INTERFACE_IS_INVALID at hval
        push_neg at hval
        omega
      intro j hj hlive
      unfold fwabf_links_del_rest fwabf_links_del_invalidate at hj hlive ⊢
      dsimp only at hj hlive ⊢
      have hjlen : j < s.fwabf_links.length := by simpa using hj
      by_cases hjs : j = sw
      · exfalso
        subst hjs
        rw [getD_set_self _ _ _ _ (by simpa using hsw)] at hlive
        dsimp only at hlive
        rw [getD_set_self _ _ _ _ hsw] at hlive
        exact hlive rfl
      · rw [getD_set_ne _ _ _ _ _ hjs, getD_set_ne _ _ _ _ _ hjs] at hlive ⊢
        have hj0 := hinv j hjlen hlive
        have hj1 := huniq j hjlen hjs hlive
        by_cases hidx : (s.fwabf_links.getD sw linkFresh).dpo.dpoiIndex ≠ INDEX_INVALID
        · rw [if_pos hidx]
          rw [updFn_ne _ _ _ _ hj1]
          exact hj0
        · rw [if_neg hidx]
          exact hj0
  · intro hinv hlab hadm
    unfold fwabf_links_add_interface
    by_cases hrange : FWABF_INVALID_LABEL ≤ fwlabel
    · rw [if_pos hrange]
      exact hinv
    · rw [if_neg hrange]
      dsimp only
      set links0 :=
        (if s.fwabf_links.length ≤ sw then
          s.fwabf_links ++ List.replicate (sw + 1 - s.fwabf_links.length) linkFresh
        else s.fwabf_links) with hlinks0
      have hlen0 : s.fwabf_links.length ≤ links0.length := by
        rw [hlinks0]
        split
        · simp
        · exact le_refl _
      have hswlen : sw < links0.length := by
        rw [hlinks0]
        split
        · rename_i hle
          simp [List.length_append, List.length_replicate]
          omega
        · rename_i hgt
          omega
      have hsame : ∀ j, j < s.fwabf_links.length →
          links0.getD j linkFresh = s.fwabf_links.getD j linkFresh := by
        intro j hjl
        rw [hlinks0]
        split
        · exact getD_append_left _ _ _ _ hjl
        · rfl
      have hfresh : ∀ j, s.fwabf_links.length ≤ j → j < links0.length →
          links0.getD j linkFresh = linkFresh := by
        intro j hjge hjlt
        rw [hlinks0] at hjlt ⊢
        by_cases hcond : s.fwabf_links.length ≤ sw
        · rw [if_pos hcond] at hjlt ⊢
          rw [getD_append_right _ _ _ _ hjge]
          apply getD_replicate
          simp only [List.length_append, List.length_replicate] at hjlt
          omega
        · rw [if_neg hcond] at hjlt
          omega
      split
      · rename_i hreuse
        dsimp only
        apply refresh_adminInv
        · intro j hj hjs hlive
          have hjl : j < links0.length := by simpa using hj
          rw [getD_set_ne _ _ _ _ _ hjs] at hlive ⊢
          by_cases hjold : j < s.fwabf_links.length
          · rw [hsame j hjold] at hlive ⊢
            exact hinv j hjold hlive
          · exfalso
            rw [hfresh j (by omega) hjl] at hlive
            exact hlive rfl
        · intro j hj hlive
          have hjl : j < links0.length := by simpa using hj
          by_cases hjs : j = sw
          · subst hjs
            rw [getD_set_self _ _ _ _ hswlen] at hlive ⊢
            dsimp only
            unfold FWABF_INVALID_LABEL at hrange
            unfold FWABF_MAX_LABEL
            omega
          · rw [getD_set_ne _ _ _ _ _ hjs] at hlive ⊢
            by_cases hjold : j < s.fwabf_links.length
            · rw [hsame j hjold] at hlive ⊢
              exact hlab j hjold hlive
            · exfalso
              rw [hfresh j (by omega) hjl] at hlive
              exact hlive rfl
        · rw [getD_set_self _ _ _ _ hswlen]
          dsimp only
          exact hadm
      · rename_i hexists
        exact hinv

/-- Witness for C7 (amended) at the concrete one-live-link state: the
hypotheses of the conditional preservation hold for a refresh that moves the
link onto the previously unmapped adjacency 9, and the admin-map invariant
holds afterwards. -/
theorem C7_witness :
    adminMapInvariant linksStateOneLive ∧
    liveLabelsValid linksStateOneLive ∧
    linksStateOneLive.adj_indexes_to_labels 9 = FWABF_INVALID_LABEL ∧
    adminMapInvariant (fwabf_link_refresh_dpo linksStateOneLive 1 ⟨.adjacency, 9⟩) :=
  ⟨by decide, by decide, by decide,
   (C7_amended_admin_map linksStateOneLive 1 7 ⟨.adjacency, 9⟩).2.1
     (by decide) (by decide) (Or.inl (by decide))⟩

theorem coreEq_refl (s : LinksState) : coreEq s s := ⟨rfl, fun _ => rfl, rfl, rfl⟩

theorem coreEq_trans {s t u : LinksState} (h1 : coreEq s t) (h2 : coreEq t u) : coreEq s u :=
  ⟨h1.1.trans h2.1, fun k => (h1.2.1 k).trans (h2.2.1 k), h1.2.2.1.trans h2.2.2.1,
   h1.2.2.2.trans h2.2.2.2⟩

theorem coreEq_bumpHits (s : LinksState) (l : Nat) : coreEq (bumpHits s l) s := by
  refine ⟨rfl, ?_, rfl, rfl⟩
  intro k
  unfold bumpHits updFn
  dsimp only
  by_cases h : k = l <;> simp [h]

theorem coreEq_bumpMisses (s : LinksState) (l : Nat) : coreEq (bumpMisses s l) s := by
  refine ⟨rfl, ?_, rfl, rfl⟩
  intro k
  unfold bumpMisses updFn
  dsimp only
  by_cases h : k = l <;> simp [h]

theorem coreEq_bumpEnforcedHits (s : LinksState) (l : Nat) :
    coreEq (bumpEnforcedHits s l) s := by
  refine ⟨rfl, ?_, rfl, rfl⟩
  intro k
  unfold bumpEnforcedHits updFn
  dsimp only
  by_cases h : k = l <;> simp [h]

theorem coreEq_bumpEnforcedMisses (s : LinksState) (l : Nat) :
    coreEq (bumpEnforcedMisses s l) s := by
  refine ⟨rfl, ?_, rfl, rfl⟩
  intro k
  unfold bumpEnforcedMisses updFn
  dsimp only
  by_cases h : k = l <;> simp [h]

theorem coreEq_links_get_dpo_loop (fwlabel : Nat) (s : LinksState) (l : List DpoId) :
    coreEq (fwabf_links_get_dpo_loop fwlabel s l).2 s := by
  induction l with
  | nil => exact coreEq_bumpMisses s fwlabel
  | cons d rest ih =>
    unfold fwabf_links_get_dpo_loop
    by_cases h : s.adj_indexes_to_reachable_labels d.dpoiIndex = fwlabel
    · simp only [if_pos h]
      exact coreEq_bumpHits s fwlabel
    · simp only [if_neg h]
      exact ih

theorem coreEq_links_get_dpo (fwlabel : Nat) (lb : LoadBalance) (s : LinksState) :
    coreEq (fwabf_links_get_dpo fwlabel lb s).2 s := by
  unfold fwabf_links_get_dpo
  by_cases h1 : lb.lb_n_buckets = 1
  · simp only [if_pos h1]
    by_cases h2 : s.adj_indexes_to_reachable_labels
        (load_balance_get_bucket_i lb 0).dpoiIndex = fwlabel
    · simp only [if_pos h2]
      exact coreEq_bumpHits s fwlabel
    · simp only [if_neg h2]
      exact coreEq_bumpMisses s fwlabel
  · simp only [if_neg h1]
    exact coreEq_links_get_dpo_loop fwlabel s lb.lb_buckets

theorem coreEq_links_get_labeled_dpo (fwlabel : Nat) (s : LinksState) :
    coreEq (fwabf_links_get_labeled_dpo fwlabel s).2 s := by
  unfold fwabf_links_get_labeled_dpo
  dsimp only
  by_cases h1 : (s.fwabf_labels fwlabel).sw_if_index = INDEX_INVALID
  · simp only [if_pos h1]
    exact coreEq_refl s
  · simp only [if_neg h1]
    split
    · exact coreEq_bumpEnforcedHits s fwlabel
    · exact coreEq_bumpEnforcedMisses s fwlabel

theorem coreEq_FWABF_POLICY_GET_DPO (fwlabel : Nat) (lb : LoadBalance) (proto : DpoProto)
    (b : Bool) (s : LinksState) :
    coreEq (FWABF_POLICY_GET_DPO fwlabel lb proto b s).2 s := by
  unfold FWABF_POLICY_GET_DPO
  by_cases hb : b = true
  · simp only [hb, if_pos rfl]
    exact coreEq_links_get_labeled_dpo fwlabel s
  · simp only [if_neg hb]
    exact coreEq_links_get_dpo fwlabel lb s

theorem links_get_dpo_loop_fst_congr (fwlabel : Nat) {s t : LinksState} (h : coreEq s t) :
    ∀ l, (fwabf_links_get_dpo_loop fwlabel s l).1 = (fwabf_links_get_dpo_loop fwlabel t l).1 := by
  intro l
  induction l with
  | nil => simp [fwabf_links_get_dpo_loop]
  | cons d rest ih =>
    unfold fwabf_links_get_dpo_loop
    rw [h.2.2.2]
    by_cases hc : t.adj_indexes_to_reachable_labels d.dpoiIndex = fwlabel
    · simp only [if_pos hc]
    · simp only [if_neg hc]
      exact ih

theorem links_get_dpo_fst_congr (fwlabel : Nat) (lb : LoadBalance) {s t : LinksState}
    (h : coreEq s t) :
    (fwabf_links_get_dpo fwlabel lb s).1 = (fwabf_links_get_dpo fwlabel lb t).1 := by
  unfold fwabf_links_get_dpo
  rw [h.2.2.2]
  by_cases h1 : lb.lb_n_buckets = 1
  · simp only [if_pos h1]
    by_cases h2 : t.adj_indexes_to_reachable_labels
        (load_balance_get_bucket_i lb 0).dpoiIndex = fwlabel
    · simp only [if_pos h2]
    · simp only [if_neg h2]
  · simp only [if_neg h1]
    exact links_get_dpo_loop_fst_congr fwlabel h lb.lb_buckets

theorem links_get_labeled_dpo_fst_congr (fwlabel : Nat) {s t : LinksState} (h : coreEq s t) :
    (fwabf_links_get_labeled_dpo fwlabel s).1 = (fwabf_links_get_labeled_dpo fwlabel t).1 := by
  unfold fwabf_links_get_labeled_dpo
  dsimp only
  rw [h.2.1 fwlabel, h.1]
  by_cases h1 : (t.fwabf_labels fwlabel).sw_if_index = INDEX_INVALID
  · simp only [if_pos h1]
  · simp only [if_neg h1]
    split
    · rfl
    · rfl

theorem FWABF_POLICY_GET_DPO_fst_congr (fwlabel : Nat) (lb : LoadBalance) (proto : DpoProto)
    (b : Bool) {s t : LinksState} (h : coreEq s t) :
    (FWABF_POLICY_GET_DPO fwlabel lb proto b s).1 =
      (FWABF_POLICY_GET_DPO fwlabel lb proto b t).1 := by
  unfold FWABF_POLICY_GET_DPO
  by_cases hb : b = true
  · simp only [hb, if_pos rfl]
    exact links_get_labeled_dpo_fst_congr fwlabel h
  · simp only [if_neg hb]
    exact links_get_dpo_fst_congr fwlabel lb h

theorem getD_mem {α : Type} (l : List α) (i : Nat) (d : α) (h : i < l.length) :
    l.getD i d ∈ l := by
  induction l generalizing i with
  | nil => simp at h
  | cons x xs ih =>
    cases i with
    | zero => simp
    | succ n =>
      simp only [List.getD_cons_succ]
      exact List.mem_cons_of_mem _ (ih n (by simpa using h))

theorem find?_append_of_some {α : Type} (l1 l2 : List α) (p : α → Bool) (x : α)
    (h : l1.find? p = some x) : (l1 ++ l2).find? p = some x := by
  induction l1 with
  | nil => simp [List.find?] at h
  | cons a rest ih =>
    by_cases hp : p a
    · rw [List.find?_cons_of_pos _ hp] at h
      rw [List.cons_append, List.find?_cons_of_pos _ hp]
      exact h
    · rw [List.find?_cons_of_neg _ (by simpa using hp)] at h
      rw [List.cons_append, List.find?_cons_of_neg _ (by simpa using hp)]
      exact ih h

theorem find?_append_of_none {α : Type} (l1 l2 : List α) (p : α → Bool)
    (h : l1.find? p = none) : (l1 ++ l2).find? p = l2.find? p := by
  induction l1 with
  | nil => simp
  | cons a rest ih =>
    by_cases hp : p a
    · rw [List.find?_cons_of_pos _ hp] at h
      exact Option.noConfusion h
    · rw [List.find?_cons_of_neg _ (by simpa using hp)] at h
      rw [List.cons_append, List.find?_cons_of_neg _ (by simpa using hp)]
      exact ih h

/-- Specification of the ordered label scan relative to a reference state with
the same configuration core: the scan returns the probe result of the first
label whose probe yields a valid DPO, and preserves the core. -/
theorem scan_labels_spec (lb : LoadBalance) (proto : DpoProto) (b : Bool)
    (s0 : LinksState) :
    ∀ (labels : List Nat) (s : LinksState), coreEq s s0 →
      coreEq (fwabf_policy_scan_labels lb proto b s labels).2 s0 ∧
      (fwabf_policy_scan_labels lb proto b s labels).1 =
        (labels.find?
            (fun l => dpoIdIsValid (FWABF_POLICY_GET_DPO l lb proto b s0).1)).map
          (fun l => (FWABF_POLICY_GET_DPO l lb proto b s0).1) := by
  intro labels
  induction labels with
  | nil =>
    intro s hs
    exact ⟨hs, rfl⟩
  | cons l rest ih =>
    intro s hs
    unfold fwabf_policy_scan_labels
    dsimp only
    have hfst : (FWABF_POLICY_GET_DPO l lb proto b s).1 =
        (FWABF_POLICY_GET_DPO l lb proto b s0).1 :=
      FWABF_POLICY_GET_DPO_fst_congr l lb proto b hs
    have hcore : coreEq (FWABF_POLICY_GET_DPO l lb proto b s).2 s0 :=
      coreEq_trans (coreEq_FWABF_POLICY_GET_DPO l lb proto b s) hs
    rw [hfst]
    rw [List.find?_cons]
    by_cases hv : dpoIdIsValid (FWABF_POLICY_GET_DPO l lb proto b s0).1
    · simp only [hv, if_pos hv]
      exact ⟨hcore, rfl⟩
    · simp only [if_neg hv]
      have hv2 : dpoIdIsValid (FWABF_POLICY_GET_DPO l lb proto b s0).1 = false := by
        simpa using hv
      simp only [hv2]
      exact ih _ hcore

/-- Specification of the ordered group scan when every group uses ordered
link selection: the scan returns the probe result of the first label, in
group-then-label declared order, whose probe yields a valid DPO. -/
theorem scan_groups_ordered_spec (lb : LoadBalance) (proto : DpoProto) (b : Bool)
    (fh : Nat) (s0 : LinksState) :
    ∀ (gs : List FwabfPolicyLinkGroup), (∀ g ∈ gs, g.alg = .ordered) →
    ∀ s, coreEq s s0 →
      coreEq (fwabf_policy_scan_groups lb proto b fh s gs).2 s0 ∧
      (fwabf_policy_scan_groups lb proto b fh s gs).1 =
        ((actionLabels gs).find?
            (fun l => dpoIdIsValid (FWABF_POLICY_GET_DPO l lb proto b s0).1)).map
          (fun l => (FWABF_POLICY_GET_DPO l lb proto b s0).1) := by
  intro gs
  induction gs with
  | nil =>
    intro _ s hs
    exact ⟨hs, rfl⟩
  | cons g rest ih =>
    intro hord s hs
    have hg : g.alg = .ordered := hord g (List.mem_cons_self g rest)
    have hrest : ∀ g2 ∈ rest, g2.alg = .ordered :=
      fun g2 hm => hord g2 (List.mem_cons_of_mem g hm)
    have hnotrand : ¬(g.alg = .random ∧ 1 < g.links.length) := by
      intro hc
      rw [hg] at hc
      exact FwabfSelectionAlg.noConfusion hc.1
    have hone : fwabf_policy_scan_one_group lb proto b fh s g =
        fwabf_policy_scan_labels lb proto b s g.links := by
      unfold fwabf_policy_scan_one_group
      rw [if_neg hnotrand]
    rcases hres : fwabf_policy_scan_labels lb proto b s g.links with ⟨o, s1⟩
    have hstep : fwabf_policy_scan_groups lb proto b fh s (g :: rest) =
        (match o with
         | some d => (some d, s1)
         | none => fwabf_policy_scan_groups lb proto b fh s1 rest) := by
      cases o with
      | some d =>
        simp only [fwabf_policy_scan_groups]
        rw [hone, hres]
      | none =>
        simp only [fwabf_policy_scan_groups]
        rw [hone, hres]
    obtain ⟨hcore1, hfst1⟩ := scan_labels_spec lb proto b s0 g.links s hs
    rw [hres] at hcore1 hfst1
    dsimp only at hcore1 hfst1
    have hflat : actionLabels (g :: rest) = g.links ++ actionLabels rest := rfl
    rcases o with _ | d
    · have hfind : g.links.find?
          (fun l => dpoIdIsValid (FWABF_POLICY_GET_DPO l lb proto b s0).1) = none := by
        rcases hx : g.links.find?
            (fun l => dpoIdIsValid (FWABF_POLICY_GET_DPO l lb proto b s0).1) with _ | y
        · rfl
        · rw [hx] at hfst1
          exact Option.noConfusion hfst1
      obtain ⟨hcore2, hfst2⟩ := ih hrest s1 hcore1
      rw [hstep]
      dsimp only
      refine ⟨hcore2, ?_⟩
      rw [hfst2, hflat, find?_append_of_none _ _ _ hfind]
    · rcases hx : g.links.find?
          (fun l => dpoIdIsValid (FWABF_POLICY_GET_DPO l lb proto b s0).1) with _ | y
      · rw [hx] at hfst1
        exact Option.noConfusion hfst1
      · rw [hx] at hfst1
        rw [hstep]
        dsimp only
        refine ⟨hcore1, ?_⟩
        rw [hflat, find?_append_of_some _ _ _ _ hx]
        exact hfst1

theorem body_ordered_eq (p : PolicyCounters) (action : FwabfPolicyAction) (fh : Nat)
    (lb : LoadBalance) (proto : DpoProto) (isdr : Bool) (s : LinksState)
    (hA : action.alg = .ordered) :
    fwabf_policy_get_dpo_body p action fh lb proto isdr s =
      (match fwabf_policy_scan_groups lb proto isdr fh s action.link_groups with
       | (some d, s2) =>
         ⟨1, d, { p with counter_applied := u32inc p.counter_applied }, s2⟩
       | (none, s2) =>
         match action.fallback with
         | .defaultRoute =>
           ⟨0, dpoInvalid, { p with counter_fallback := u32inc p.counter_fallback }, s2⟩
         | .drop =>
           ⟨1, drop_dpo_get proto,
            { p with counter_dropped := u32inc p.counter_dropped }, s2⟩) := by
  unfold fwabf_policy_get_dpo_body
  have hno : ¬(action.alg = .random ∧ 1 < action.link_groups.length) := by
    intro hc
    rw [hA] at hc
    exact FwabfSelectionAlg.noConfusion hc.1
  rw [if_neg hno]

/-- C2: when the action's group selection is ordered and every group's link
selection is ordered, the decision scans groups in declared order and labels
within each group in declared order, returning the DPO of the first label
whose probe yields a valid DPO; when every label resolves, that label is the
first declared label of the first group. -/
theorem C2_policy_ordered_scan (p : PolicyCounters) (action : FwabfPolicyAction)
    (fh : Nat) (lb : LoadBalance) (isdr : Bool) (s : LinksState)
    (hA : action.alg = .ordered)
    (hG : ∀ g ∈ action.link_groups, g.alg = .ordered) :
    (∀ l, (actionLabels action.link_groups).find?
        (fun l2 => dpoIdIsValid (FWABF_POLICY_GET_DPO l2 lb .ip4 isdr s).1) = some l →
      (fwabf_policy_get_dpo_ip4 p action fh lb isdr s).use_policy_dpo = 1 ∧
      (fwabf_policy_get_dpo_ip4 p action fh lb isdr s).dpo =
        (FWABF_POLICY_GET_DPO l lb .ip4 isdr s).1) ∧
    ((∀ l ∈ actionLabels action.link_groups,
        dpoIdIsValid (FWABF_POLICY_GET_DPO l lb .ip4 isdr s).1 = true) →
      ∀ g0 grest, action.link_groups = g0 :: grest →
        ∀ l0 lrest, g0.links = l0 :: lrest →
          (fwabf_policy_get_dpo_ip4 p action fh lb isdr s).use_policy_dpo = 1 ∧
          (fwabf_policy_get_dpo_ip4 p action fh lb isdr s).dpo =
            (FWABF_POLICY_GET_DPO l0 lb .ip4 isdr s).1) := by
  have hbody := body_ordered_eq p action fh lb .ip4 isdr s hA
  obtain ⟨hcore, hfst⟩ :=
    scan_groups_ordered_spec lb .ip4 isdr fh s action.link_groups hG s (coreEq_refl s)
  have hmain : ∀ l, (actionLabels action.link_groups).find?
      (fun l2 => dpoIdIsValid (FWABF_POLICY_GET_DPO l2 lb .ip4 isdr s).1) = some l →
      (fwabf_policy_get_dpo_ip4 p action fh lb isdr s).use_policy_dpo = 1 ∧
      (fwabf_policy_get_dpo_ip4 p action fh lb isdr s).dpo =
        (FWABF_POLICY_GET_DPO l lb .ip4 isdr s).1 := by
    intro l hfind
    rcases hres : fwabf_policy_scan_groups lb .ip4 isdr fh s action.link_groups with ⟨o, s2⟩
    rw [hres] at hfst
    dsimp only at hfst
    rw [hfind] at hfst
    dsimp only [Option.map] at hfst
    unfold fwabf_policy_get_dpo_ip4
    rw [hbody, hres, hfst]
    exact ⟨rfl, rfl⟩
  refine ⟨hmain, ?_⟩
  intro hall g0 grest hgs l0 lrest hl0
  have hmem : l0 ∈ actionLabels action.link_groups := by
    rw [hgs]
    show l0 ∈ g0.links ++ actionLabels grest
    rw [hl0]
    exact List.mem_append_left _ (List.mem_cons_self l0 lrest)
  have hp0 : dpoIdIsValid (FWABF_POLICY_GET_DPO l0 lb .ip4 isdr s).1 = true := hall l0 hmem
  have hfind : (actionLabels action.link_groups).find?
      (fun l2 => dpoIdIsValid (FWABF_POLICY_GET_DPO l2 lb .ip4 isdr s).1) = some l0 := by
    rw [hgs]
    show (g0.links ++ actionLabels grest).find? _ = some l0
    rw [hl0]
    rw [List.cons_append, List.find?_cons]
    simp only [hp0]
  exact hmain l0 hfind

/-- Witness for C2 at a concrete configuration: one ordered group with the
single label 7, reachable on the FIB bucket adjacency, so the policy DPO is
used and equals the probe of label 7. -/
theorem C2_witness :
    (actionLabels actionOrdered7.link_groups).find?
        (fun l2 => dpoIdIsValid (FWABF_POLICY_GET_DPO l2 lbAdj5 .ip4 false linksStateOneLive).1) =
      some 7 ∧
    (fwabf_policy_get_dpo_ip4 pc0 actionOrdered7 0 lbAdj5 false linksStateOneLive).use_policy_dpo = 1 ∧
    (fwabf_policy_get_dpo_ip4 pc0 actionOrdered7 0 lbAdj5 false linksStateOneLive).dpo =
      (FWABF_POLICY_GET_DPO 7 lbAdj5 .ip4 false linksStateOneLive).1 :=
  ⟨by decide,
   ((C2_policy_ordered_scan pc0 actionOrdered7 0 lbAdj5 false linksStateOneLive
      (by decide) (by decide)).1 7 (by decide)).1,
   ((C2_policy_ordered_scan pc0 actionOrdered7 0 lbAdj5 false linksStateOneLive
      (by decide) (by decide)).1 7 (by decide)).2⟩

/-- A label list all of whose probes fail scans to `none` and preserves the
configuration core. -/
theorem scan_labels_fail (lb : LoadBalance) (proto : DpoProto) (b : Bool)
    (s0 : LinksState) (labels : List Nat)
    (hfail : ∀ l ∈ labels, dpoIdIsValid (FWABF_POLICY_GET_DPO l lb proto b s0).1 = false) :
    ∀ s, coreEq s s0 →
      (fwabf_policy_scan_labels lb proto b s labels).1 = none ∧
      coreEq (fwabf_policy_scan_labels lb proto b s labels).2 s0 := by
  intro s hs
  obtain ⟨hcore, hfst⟩ := scan_labels_spec lb proto b s0 labels s hs
  have hfind : labels.find?
      (fun l => dpoIdIsValid (FWABF_POLICY_GET_DPO l lb proto b s0).1) = none := by
    apply List.find?_eq_none.mpr
    intro x hx
    simp [hfail x hx]
  rw [hfind] at hfst
  exact ⟨hfst, hcore⟩

/-- A group all of whose label probes fail yields `none` from
`fwabf_policy_scan_one_group` (including its hash-picked probe, which is one
of the group's labels thanks to the pre-computed `n_links_minus_1`). -/
theorem scan_one_group_fail (lb : LoadBalance) (proto : DpoProto) (b : Bool)
    (fh : Nat) (s0 : LinksState) (g : FwabfPolicyLinkGroup)
    (hpre : g.precomputed)
    (hfail : ∀ l ∈ g.links, dpoIdIsValid (FWABF_POLICY_GET_DPO l lb proto b s0).1 = false) :
    ∀ s, coreEq s s0 →
      (fwabf_policy_scan_one_group lb proto b fh s g).1 = none ∧
      coreEq (fwabf_policy_scan_one_group lb proto b fh s g).2 s0 := by
  intro s hs
  unfold fwabf_policy_scan_one_group
  by_cases hrand : g.alg = .random ∧ 1 < g.links.length
  · rw [if_pos hrand]
    dsimp only
    set lx := g.links.getD (fh &&& g.n_links_minus_1) 0 with hlx
    have hmemx : lx ∈ g.links := by
      apply getD_mem
      have h1 : fh &&& g.n_links_minus_1 ≤ g.n_links_minus_1 := Nat.and_le_right
      have h2 : g.n_links_minus_1 = g.links.length - 1 := hpre.1
      omega
    have hxf : dpoIdIsValid (FWABF_POLICY_GET_DPO lx lb proto b s).1 = false := by
      rw [FWABF_POLICY_GET_DPO_fst_congr lx lb proto b hs]
      exact hfail lx hmemx
    rw [if_neg (by simp [hxf])]
    exact scan_labels_fail lb proto b s0 g.links hfail _
      (coreEq_trans (coreEq_FWABF_POLICY_GET_DPO lx lb proto b s) hs)
  · rw [if_neg hrand]
    exact scan_labels_fail lb proto b s0 g.links hfail s hs

/-- A group list all of whose label probes fail yields `none` from the group
scan. -/
theorem scan_groups_fail (lb : LoadBalance) (proto : DpoProto) (b : Bool)
    (fh : Nat) (s0 : LinksState) :
    ∀ (gs : List FwabfPolicyLinkGroup), (∀ g ∈ gs, g.precomputed) →
      (∀ g ∈ gs, ∀ l ∈ g.links,
        dpoIdIsValid (FWABF_POLICY_GET_DPO l lb proto b s0).1 = false) →
      ∀ s, coreEq s s0 →
        (fwabf_policy_scan_groups lb proto b fh s gs).1 = none ∧
        coreEq (fwabf_policy_scan_groups lb proto b fh s gs).2 s0 := by
  intro gs
  induction gs with
  | nil =>
    intro _ _ s hs
    exact ⟨rfl, hs⟩
  | cons g rest ih =>
    intro hpre hfail s hs
    obtain ⟨ho, hc⟩ := scan_one_group_fail lb proto b fh s0 g
      (hpre g (List.mem_cons_self g rest))
      (hfail g (List.mem_cons_self g rest)) s hs
    rcases hres : fwabf_policy_scan_one_group lb proto b fh s g with ⟨o, s1⟩
    rw [hres] at ho hc
    dsimp only at ho hc
    subst ho
    have hstep : fwabf_policy_scan_groups lb proto b fh s (g :: rest) =
        fwabf_policy_scan_groups lb proto b fh s1 rest := by
      simp only [fwabf_policy_scan_groups]
      rw [hres]
    rw [hstep]
    exact ih (fun g2 hm => hpre g2 (List.mem_cons_of_mem g hm))
      (fun g2 hm => hfail g2 (List.mem_cons_of_mem g hm)) s1 hc

/-- The random group-selection prologue yields `none` when every label probe
fails; the hash-picked group is one of the groups thanks to the pre-computed
fields. -/
theorem prologue_fail (action : FwabfPolicyAction) (fh : Nat) (lb : LoadBalance)
    (proto : DpoProto) (b : Bool) (s0 : LinksState)
    (hpre : action.precomputed)
    (hglen : 1 < action.link_groups.length)
    (hfail : ∀ g ∈ action.link_groups, ∀ l ∈ g.links,
      dpoIdIsValid (FWABF_POLICY_GET_DPO l lb proto b s0).1 = false) :
    ∀ s, coreEq s s0 →
      (fwabf_policy_random_prologue action fh lb proto b s).1 = none ∧
      coreEq (fwabf_policy_random_prologue action fh lb proto b s).2 s0 := by
  intro s hs
  unfold fwabf_policy_random_prologue
  dsimp only
  set i := FWABF_GET_INDEX_BY_FLOWHASH fh action.n_link_groups_pow2_mask
    action.n_link_groups_minus_1 with hi
  have hilt : i < action.link_groups.length := by
    have h1 : i ≤ action.n_link_groups_minus_1 := by
      rw [hi]
      unfold FWABF_GET_INDEX_BY_FLOWHASH
      dsimp only
      split
      · assumption
      · exact Nat.and_le_right
    have h2 : action.n_link_groups_minus_1 = action.link_groups.length - 1 := hpre.1
    omega
  set group := action.link_groups.getD i groupDefault with hgroup
  have hmemg : group ∈ action.link_groups := getD_mem _ _ _ hilt
  have hgpre : group.precomputed := hpre.2.2 group hmemg
  have hgfail : ∀ l ∈ group.links,
      dpoIdIsValid (FWABF_POLICY_GET_DPO l lb proto b s0).1 = false :=
    hfail group hmemg
  by_cases hrand : group.alg = .random ∧ 1 < group.links.length
  · rw [if_pos hrand]
    set j := FWABF_GET_INDEX_BY_FLOWHASH fh group.n_links_pow2_mask group.n_links_minus_1
      with hj
    have hjlt : j < group.links.length := by
      have h1 : j ≤ group.n_links_minus_1 := by
        rw [hj]
        unfold FWABF_GET_INDEX_BY_FLOWHASH
        dsimp only
        split
        · assumption
        · exact Nat.and_le_right
      have h2 : group.n_links_minus_1 = group.links.length - 1 := hgpre.1
      omega
    set lx := group.links.getD j 0 with hlx
    have hmemx : lx ∈ group.links := getD_mem _ _ _ hjlt
    have hxf : dpoIdIsValid (FWABF_POLICY_GET_DPO lx lb proto b s).1 = false := by
      rw [FWABF_POLICY_GET_DPO_fst_congr lx lb proto b hs]
      exact hgfail lx hmemx
    rw [if_neg (by simp [hxf])]
    exact scan_labels_fail lb proto b s0 group.links hgfail _
      (coreEq_trans (coreEq_FWABF_POLICY_GET_DPO lx lb proto b s) hs)
  · rw [if_neg hrand]
    exact scan_labels_fail lb proto b s0 group.links hgfail s hs

/-- When no label of any group resolves, the decision body falls through to
the configured fallback: defer to the FIB on DEFAULT_ROUTE, or return the
drop DPO with `use_policy_dpo = 1` on DROP. -/
theorem body_fail (p : PolicyCounters) (action : FwabfPolicyAction) (fh : Nat)
    (lb : LoadBalance) (proto : DpoProto) (isdr : Bool) (s : LinksState)
    (hpre : action.precomputed)
    (hfail : ∀ g ∈ action.link_groups, ∀ l ∈ g.links,
      dpoIdIsValid (FWABF_POLICY_GET_DPO l lb proto isdr s).1 = false) :
    ((fwabf_policy_get_dpo_body p action fh lb proto isdr s).use_policy_dpo =
      match action.fallback with
      | .defaultRoute => 0
      | .drop => 1) ∧
    (action.fallback = .drop →
      (fwabf_policy_get_dpo_body p action fh lb proto isdr s).dpo = drop_dpo_get proto) := by
  unfold fwabf_policy_get_dpo_body
  have hr1 : ∀ (r1 : Option DpoId × LinksState), r1.1 = none → coreEq r1.2 s →
      ((match r1 with
        | (some d, s1) =>
          (⟨1, d, { p with counter_applied := u32inc p.counter_applied }, s1⟩ :
            PolicyGetDpoResult)
        | (none, s1) =>
          match fwabf_policy_scan_groups lb proto isdr fh s1 action.link_groups with
          | (some d, s2) =>
            ⟨1, d, { p with counter_applied := u32inc p.counter_applied }, s2⟩
          | (none, s2) =>
            match action.fallback with
            | .defaultRoute =>
              ⟨0, dpoInvalid, { p with counter_fallback := u32inc p.counter_fallback }, s2⟩
            | .drop =>
              ⟨1, drop_dpo_get proto,
               { p with counter_dropped := u32inc p.counter_dropped }, s2⟩).use_policy_dpo =
        match action.fallback with
        | .defaultRoute => 0
        | .drop => 1) ∧
      (action.fallback = .drop →
        (match r1 with
         | (some d, s1) =>
           (⟨1, d, { p with counter_applied := u32inc p.counter_applied }, s1⟩ :
             PolicyGetDpoResult)
         | (none, s1) =>
           match fwabf_policy_scan_groups lb proto isdr fh s1 action.link_groups with
           | (some d, s2) =>
             ⟨1, d, { p with counter_applied := u32inc p.counter_applied }, s2⟩
           | (none, s2) =>
             match action.fallback with
             | .defaultRoute =>
               ⟨0, dpoInvalid, { p with counter_fallback := u32inc p.counter_fallback }, s2⟩
             | .drop =>
               ⟨1, drop_dpo_get proto,
                { p with counter_dropped := u32inc p.counter_dropped }, s2⟩).dpo =
          drop_dpo_get proto) := by
    intro r1 h1 h2
    rcases r1 with ⟨o, s1⟩
    dsimp only at h1
    subst h1
    obtain ⟨hg1, hg2⟩ := scan_groups_fail lb proto isdr fh s action.link_groups
      hpre.2.2 hfail s1 h2
    rcases hgs : fwabf_policy_scan_groups lb proto isdr fh s1 action.link_groups with ⟨o2, s2⟩
    rw [hgs] at hg1
    dsimp only at hg1
    subst hg1
    constructor
    · dsimp only
      rw [hgs]
      cases hf : action.fallback <;> rfl
    · intro hdrop
      dsimp only
      rw [hgs, hdrop]
  by_cases hrand : action.alg = .random ∧ 1 < action.link_groups.length
  · rw [if_pos hrand]
    obtain ⟨hp1, hp2⟩ := prologue_fail action fh lb proto isdr s hpre hrand.2 hfail s
      (coreEq_refl s)
    exact hr1 _ hp1 hp2
  · rw [if_neg hrand]
    exact hr1 (none, s) rfl (coreEq_refl s)

/-- C3: if no label in any group of the action yields a valid DPO, the
Policy Decision Module returns `use_policy_dpo = 0` under the DEFAULT_ROUTE
fallback (the caller then forwards by the FIB result) and
`use_policy_dpo = 1` together with the synthetic drop DPO under the DROP
fallback, for both the IPv4 and the IPv6 entry points. -/
theorem C3_policy_fallback (p : PolicyCounters) (action : FwabfPolicyAction)
    (fh : Nat) (lb : LoadBalance) (isdr : Bool) (s : LinksState)
    (hpre : action.precomputed)
    (hfail : ∀ g ∈ action.link_groups, ∀ l ∈ g.links,
      dpoIdIsValid (FWABF_POLICY_GET_DPO l lb .ip4 isdr s).1 = false) :
    (action.fallback = .defaultRoute →
      (fwabf_policy_get_dpo_ip4 p action fh lb isdr s).use_policy_dpo = 0 ∧
      (fwabf_policy_get_dpo_ip6 p action fh lb isdr s).use_policy_dpo = 0) ∧
    (action.fallback = .drop →
      (fwabf_policy_get_dpo_ip4 p action fh lb isdr s).use_policy_dpo = 1 ∧
      (fwabf_policy_get_dpo_ip4 p action fh lb isdr s).dpo = drop_dpo_get .ip4 ∧
      (fwabf_policy_get_dpo_ip6 p action fh lb isdr s).use_policy_dpo = 1 ∧
      (fwabf_policy_get_dpo_ip6 p action fh lb isdr s).dpo = drop_dpo_get .ip6) := by
  have hfail6 : ∀ g ∈ action.link_groups, ∀ l ∈ g.links,
      dpoIdIsValid (FWABF_POLICY_GET_DPO l lb .ip6 isdr s).1 = false := hfail
  have h4 := body_fail p action fh lb .ip4 isdr s hpre hfail
  have h6 := body_fail p action fh lb .ip6 isdr s hpre hfail6
  constructor
  · intro hdr
    rw [hdr] at h4 h6
    exact ⟨h4.1, h6.1⟩
  · intro hdrop
    rw [hdrop] at h4 h6
    exact ⟨h4.1, h4.2 rfl, h6.1, h6.2 rfl⟩

/-- Witness for C3 at a concrete configuration: an action with fallback DROP
whose labels 1 and 2 both fail to resolve against a FIB bucket mapped to
label 7; the decision returns the drop DPO with the use flag set. -/
theorem C3_witness :
    actionDrop12.precomputed ∧
    (∀ g ∈ actionDrop12.link_groups, ∀ l ∈ g.links,
      dpoIdIsValid (FWABF_POLICY_GET_DPO l lbAdj5 .ip4 false linksStateOneLive).1 = false) ∧
    (fwabf_policy_get_dpo_ip4 pc0 actionDrop12 0 lbAdj5 false
        linksStateOneLive).use_policy_dpo = 1 ∧
    (fwabf_policy_get_dpo_ip4 pc0 actionDrop12 0 lbAdj5 false linksStateOneLive).dpo =
      drop_dpo_get .ip4 :=
  ⟨by decide, by decide,
   ((C3_policy_fallback pc0 actionDrop12 0 lbAdj5 false linksStateOneLive
      (by decide) (by decide)).2 rfl).1,
   ((C3_policy_fallback pc0 actionDrop12 0 lbAdj5 false linksStateOneLive
      (by decide) (by decide)).2 rfl).2.1⟩

/-- C5 (code-bug evidence): attaching policy 5 to interface 1 when that
attachment already exists returns the duplicate-registration error, yet the
policy's reference counter has been incremented from 1 to 2 — `fwabf_itf_attach`
bumps `refCounter` before the duplicate check and never rolls it back.  The
attachment pool, the attachment database entry and the per-(interface,
family) list are unchanged, so the reference counter is the one mutation. -/
theorem C5_duplicate_attach_leaks_refcount :
    (fwabf_itf_attach ctrlStateOneAttach .ip4 5 10 1 9).1 = .entryAlreadyExists ∧
    (poolPolicy ctrlStateOneAttach 0).refCounter = 1 ∧
    (poolPolicy (fwabf_itf_attach ctrlStateOneAttach .ip4 5 10 1 9).2 0).refCounter = 2 ∧
    (fwabf_itf_attach ctrlStateOneAttach .ip4 5 10 1 9).2.fwabf_itf_attach_pool =
      ctrlStateOneAttach.fwabf_itf_attach_pool ∧
    (fwabf_itf_attach ctrlStateOneAttach .ip4 5 10 1 9).2.fwabf_attach_per_itf .ip4 1 =
      ctrlStateOneAttach.fwabf_attach_per_itf .ip4 1 ∧
    (fwabf_itf_attach ctrlStateOneAttach .ip4 5 10 1 9).2.fwabf_itf_attach_db 5 1 =
      ctrlStateOneAttach.fwabf_itf_attach_db 5 1 :=
  ⟨rfl, rfl, rfl, rfl, rfl, rfl⟩

/-- C6 (code-bug evidence): after attach, duplicate attach (error), detach,
no attachment references policy 5 — the attachment database entry is gone,
the per-interface list is empty and every attachment pool slot is free — yet
`fwabf_policy_delete` fails with the in-use error, because the duplicate
attach leaked a reference count.  The failed delete itself mutates nothing. -/
theorem C6_delete_in_use_without_attachments :
    (fwabf_itf_detach
        (fwabf_itf_attach (fwabf_itf_attach ctrlStateOnePolicy .ip4 5 10 1 9).2
          .ip4 5 11 1 9).2 .ip4 5 1).2.fwabf_itf_attach_db 5 1 = none ∧
    (fwabf_itf_detach
        (fwabf_itf_attach (fwabf_itf_attach ctrlStateOnePolicy .ip4 5 10 1 9).2
          .ip4 5 11 1 9).2 .ip4 5 1).2.fwabf_attach_per_itf .ip4 1 = [] ∧
    (fwabf_itf_detach
        (fwabf_itf_attach (fwabf_itf_attach ctrlStateOnePolicy .ip4 5 10 1 9).2
          .ip4 5 11 1 9).2 .ip4 5 1).2.fwabf_itf_attach_pool = [none] ∧
    (fwabf_policy_delete
        (fwabf_itf_detach
          (fwabf_itf_attach (fwabf_itf_attach ctrlStateOnePolicy .ip4 5 10 1 9).2
            .ip4 5 11 1 9).2 .ip4 5 1).2 5).1 = .instanceInUse ∧
    (fwabf_policy_delete
        (fwabf_itf_detach
          (fwabf_itf_attach (fwabf_itf_attach ctrlStateOnePolicy .ip4 5 10 1 9).2
            .ip4 5 11 1 9).2 .ip4 5 1).2 5).2 =
      (fwabf_itf_detach
        (fwabf_itf_attach (fwabf_itf_attach ctrlStateOnePolicy .ip4 5 10 1 9).2
          .ip4 5 11 1 9).2 .ip4 5 1).2 :=
  ⟨rfl, rfl, rfl, rfl, rfl⟩

theorem getD_none_of_ge {α : Type} (l : List (Option α)) (i : Nat) (h : l.length ≤ i) :
    l.getD i none = none := by
  induction l generalizing i with
  | nil => cases i <;> rfl
  | cons x xs ih =>
    cases i with
    | zero => simp at h
    | succ n =>
      simp only [List.getD_cons_succ]
      exact ih n (by simpa using h)

theorem poolFirstFree_le {α : Type} (pool : List (Option α)) :
    poolFirstFree pool ≤ pool.length := by
  induction pool with
  | nil => exact le_refl 0
  | cons x rest ih =>
    cases x with
    | none => simp [poolFirstFree]
    | some a =>
      show poolFirstFree rest + 1 ≤ rest.length + 1
      omega

theorem getD_lt_of_ne_none {α : Type} (l : List (Option α)) (i : Nat)
    (h : l.getD i none ≠ none) : i < l.length := by
  by_contra hc
  exact h (getD_none_of_ge l i (by omega))

theorem poolWrite_getD_ne {α : Type} (pool : List (Option α)) (k : Nat) (v : Option α)
    (i : Nat) (h : i ≠ k) (hk : k ≤ pool.length) :
    (poolWrite pool k v).getD i none = pool.getD i none := by
  unfold poolWrite
  by_cases hklt : k < pool.length
  · rw [if_pos hklt]
    exact getD_set_ne _ _ _ _ _ h
  · rw [if_neg hklt]
    by_cases hi : i < pool.length
    · exact getD_append_left _ _ _ _ hi
    · rw [getD_append_right _ _ _ _ (by omega)]
      rw [getD_none_of_ge pool i (by omega)]
      apply getD_none_of_ge
      simp only [List.length_cons, List.length_nil]
      omega

theorem poolFirstFree_getD {α : Type} (pool : List (Option α)) :
    pool.getD (poolFirstFree pool) none = none := by
  induction pool with
  | nil => rfl
  | cons x rest ih =>
    cases x with
    | none => rfl
    | some a =>
      show (some a :: rest).getD (poolFirstFree rest + 1) none = none
      simpa using ih

theorem fiaPrio_poolWrite_ne (pool : List (Option FwabfItfAttachT)) (k : Nat)
    (v : Option FwabfItfAttachT) (i : Nat) (h : i ≠ k) (hk : k ≤ pool.length) :
    fiaPrio (poolWrite pool k v) i = fiaPrio pool i := by
  unfold fiaPrio
  rw [poolWrite_getD_ne pool k v i h hk]

theorem cmp_attach_nonpos_iff (pool : List (Option FwabfItfAttachT)) (a b : Nat)
    (ha : fiaPrio pool a < 2147483648) (hb : fiaPrio pool b < 2147483648) :
    fwabf_cmp_attach_for_sort pool a b ≤ 0 ↔ fiaPrio pool a ≤ fiaPrio pool b := by
  unfold fwabf_cmp_attach_for_sort
  dsimp only
  rw [Nat.mod_eq_of_lt (show fiaPrio pool a < 4294967296 by omega),
    Nat.mod_eq_of_lt (show fiaPrio pool b < 4294967296 by omega)]
  split_ifs with hd <;> omega

theorem poolWrite_getD_self {α : Type} (pool : List (Option α)) (k : Nat)
    (v : Option α) (hk : k ≤ pool.length) :
    (poolWrite pool k v).getD k none = v := by
  unfold poolWrite
  by_cases h : k < pool.length
  · rw [if_pos h]
    exact getD_set_self pool k v none h
  · rw [if_neg h]
    have hk2 : k = pool.length := by omega
    subst hk2
    rw [getD_append_right pool [v] pool.length none (le_refl _), Nat.sub_self]
    rfl

theorem fiaPrio_poolWrite_self (pool : List (Option FwabfItfAttachT)) (k : Nat)
    (fia : FwabfItfAttachT) (hk : k ≤ pool.length) :
    fiaPrio (poolWrite pool k (some fia)) k = fia.fia_prio := by
  unfold fiaPrio
  rw [poolWrite_getD_self pool k (some fia) hk]
  rfl

theorem mem_insertByPrio (pool : List (Option FwabfItfAttachT)) (x z : Nat) :
    ∀ l, z ∈ insertByPrio pool x l → z = x ∨ z ∈ l := by
  intro l
  induction l with
  | nil =>
    intro h
    simp [insertByPrio] at h
    exact Or.inl h
  | cons y rest ih =>
    intro h
    unfold insertByPrio at h
    by_cases hc : fwabf_cmp_attach_for_sort pool x y ≤ 0
    · rw [if_pos hc] at h
      rcases List.mem_cons.mp h with h1 | h2
      · exact Or.inl h1
      · exact Or.inr h2
    · rw [if_neg hc] at h
      rcases List.mem_cons.mp h with h1 | h2
      · exact Or.inr (by rw [h1]; exact List.mem_cons_self y rest)
      · rcases ih h2 with h3 | h4
        · exact Or.inl h3
        · exact Or.inr (List.mem_cons_of_mem y h4)

theorem mem_sortByPrio (pool : List (Option FwabfItfAttachT)) (z : Nat) :
    ∀ l, z ∈ sortByPrio pool l → z ∈ l := by
  intro l
  induction l with
  | nil =>
    intro h
    exact absurd h (by simp [sortByPrio])
  | cons x rest ih =>
    intro h
    unfold sortByPrio at h
    rcases mem_insertByPrio pool x z _ h with h1 | h2
    · rw [h1]
      exact List.mem_cons_self x rest
    · exact List.mem_cons_of_mem x (ih h2)

theorem pairwise_insertByPrio (pool : List (Option FwabfItfAttachT)) (x : Nat)
    (hx : fiaPrio pool x < 2147483648) :
    ∀ l, (∀ y ∈ l, fiaPrio pool y < 2147483648) →
      List.Pairwise (fun a b => fiaPrio pool a ≤ fiaPrio pool b) l →
      List.Pairwise (fun a b => fiaPrio pool a ≤ fiaPrio pool b) (insertByPrio pool x l) := by
  intro l
  induction l with
  | nil =>
    intro _ _
    exact List.pairwise_singleton _ _
  | cons y rest ih =>
    intro hb h
    have hy : fiaPrio pool y < 2147483648 := hb y (List.mem_cons_self y rest)
    unfold insertByPrio
    by_cases hc : fwabf_cmp_attach_for_sort pool x y ≤ 0
    · rw [if_pos hc]
      have hxy : fiaPrio pool x ≤ fiaPrio pool y :=
        (cmp_attach_nonpos_iff pool x y hx hy).mp hc
      refine List.Pairwise.cons ?_ h
      intro z hz
      rcases List.mem_cons.mp hz with h1 | h2
      · rw [h1]
        exact hxy
      · exact le_trans hxy (List.rel_of_pairwise_cons h h2)
    · rw [if_neg hc]
      have hyx : fiaPrio pool y ≤ fiaPrio pool x := by
        have hn : ¬ fiaPrio pool x ≤ fiaPrio pool y := fun hle =>
          hc ((cmp_attach_nonpos_iff pool x y hx hy).mpr hle)
        omega
      refine List.Pairwise.cons ?_
        (ih (fun z hz => hb z (List.mem_cons_of_mem y hz)) (List.Pairwise.of_cons h))
      intro z hz
      rcases mem_insertByPrio pool x z rest hz with h1 | h2
      · rw [h1]
        exact hyx
      · exact List.rel_of_pairwise_cons h h2

theorem sorted_sortByPrio (pool : List (Option FwabfItfAttachT)) :
    ∀ l, (∀ y ∈ l, fiaPrio pool y < 2147483648) →
      List.Pairwise (fun a b => fiaPrio pool a ≤ fiaPrio pool b) (sortByPrio pool l) := by
  intro l
  induction l with
  | nil =>
    intro _
    exact List.Pairwise.nil
  | cons x rest ih =>
    intro hb
    unfold sortByPrio
    exact pairwise_insertByPrio pool x (hb x (List.mem_cons_self x rest)) _
      (fun z hz => hb z (List.mem_cons_of_mem x (mem_sortByPrio pool z rest hz)))
      (ih (fun z hz => hb z (List.mem_cons_of_mem x hz)))

/-- C8 (amended): under the standing invariants of the attachment store
(lists hold live, duplicate-free pool indices; lists for different keys are
disjoint; the database points into the matching list), and provided every
stored priority and the newly attached priority are below 2^31 — the range
on which `fwabf_cmp_attach_for_sort`'s u32 subtraction truncated to a
signed 32-bit int agrees with numeric comparison — every
per-(interface, family) attachment list is sorted by ascending priority
after an attach and after a detach.  (Without the bound the comparator
wraps and the attach-side claim fails: see the counterexample.) -/
theorem C8_attach_lists_sorted (cs : CtrlState) (fproto : FibProto)
    (policy_id priority sw new_lc : Nat)
    (hlive : ∀ q w i, i ∈ cs.fwabf_attach_per_itf q w →
      cs.fwabf_itf_attach_pool.getD i none ≠ none)
    (hsorted : ∀ q w, attachListSorted cs.fwabf_itf_attach_pool (cs.fwabf_attach_per_itf q w))
    (hnodup : ∀ q w, (cs.fwabf_attach_per_itf q w).Nodup)
    (hdbmem : ∀ i, cs.fwabf_itf_attach_db policy_id sw = some i →
      i ∈ cs.fwabf_attach_per_itf fproto sw)
    (hdisj : ∀ q w i, i ∈ cs.fwabf_attach_per_itf q w → ¬(q = fproto ∧ w = sw) →
      i ∉ cs.fwabf_attach_per_itf fproto sw)
    (hpr : ∀ q w i, i ∈ cs.fwabf_attach_per_itf q w →
      fiaPrio cs.fwabf_itf_attach_pool i < 2147483648)
    (hprio : priority < 2147483648) :
    (∀ q w, attachListSorted
        (fwabf_itf_attach cs fproto policy_id priority sw new_lc).2.fwabf_itf_attach_pool
        ((fwabf_itf_attach cs fproto policy_id priority sw new_lc).2.fwabf_attach_per_itf q w)) ∧
    (∀ q w, attachListSorted
        (fwabf_itf_detach cs fproto policy_id sw).2.fwabf_itf_attach_pool
        ((fwabf_itf_detach cs fproto policy_id sw).2.fwabf_attach_per_itf q w)) := by
  have hfreeK : cs.fwabf_itf_attach_pool.getD (poolFirstFree cs.fwabf_itf_attach_pool) none
      = none := poolFirstFree_getD cs.fwabf_itf_attach_pool
  have hfreeLe : poolFirstFree cs.fwabf_itf_attach_pool ≤ cs.fwabf_itf_attach_pool.length :=
    poolFirstFree_le cs.fwabf_itf_attach_pool
  constructor
  · intro q w
    unfold fwabf_itf_attach
    rcases hdb : cs.abf_policy_db policy_id with _ | pi
    · exact hsorted q w
    · dsimp only
      rcases hadb : cs.fwabf_itf_attach_db policy_id sw with _ | old
      · dsimp only
        set fiaIdx := poolFirstFree cs.fwabf_itf_attach_pool with hfia
        set pool1 := poolWrite cs.fwabf_itf_attach_pool fiaIdx
          (some ⟨(poolPolicy cs pi).acl, pi, sw, priority⟩) with hpool1
        have htrans : ∀ (lst : List Nat), (∀ i ∈ lst, i ∈ cs.fwabf_attach_per_itf q w) →
            attachListSorted cs.fwabf_itf_attach_pool lst →
            attachListSorted pool1 lst := by
          intro lst hsub hst
          refine List.Pairwise.imp_of_mem ?_ hst
          intro a b ha hb hab
          have hane : a ≠ fiaIdx := by
            intro hc
            exact (hlive q w a (hsub a ha)) (by rw [hc, hfia]; exact hfreeK)
          have hbne : b ≠ fiaIdx := by
            intro hc
            exact (hlive q w b (hsub b hb)) (by rw [hc, hfia]; exact hfreeK)
          rw [hpool1, fiaPrio_poolWrite_ne _ _ _ _ hane hfreeLe,
            fiaPrio_poolWrite_ne _ _ _ _ hbne hfreeLe]
          exact hab
        by_cases hl1 : (cs.fwabf_attach_per_itf fproto sw ++ [fiaIdx]).length = 1
        · rw [if_pos hl1]
          dsimp only
          unfold updProtoFn
          by_cases hk : q = fproto ∧ w = sw
          · rw [if_pos hk]
            have hnil : cs.fwabf_attach_per_itf fproto sw = [] := by
              rw [List.length_append] at hl1
              simp only [List.length_cons, List.length_nil] at hl1
              exact List.length_eq_zero.mp (by omega)
            rw [hnil]
            exact List.pairwise_singleton _ _
          · rw [if_neg hk]
            exact htrans _ (fun i hi => hi) (hsorted q w)
        · rw [if_neg hl1]
          dsimp only
          unfold updProtoFn
          by_cases hk : q = fproto ∧ w = sw
          · rw [if_pos hk]
            refine sorted_sortByPrio pool1 _ ?_
            intro y hy
            rcases List.mem_append.mp hy with hold | hnew
            · have hyne : y ≠ fiaIdx := by
                intro hc
                exact (hlive fproto sw y hold) (by rw [hc, hfia]; exact hfreeK)
              rw [hpool1, fiaPrio_poolWrite_ne _ _ _ _ hyne hfreeLe]
              exact hpr fproto sw y hold
            · have hyeq : y = fiaIdx := by simpa using hnew
              rw [hyeq, hpool1, fiaPrio_poolWrite_self _ _ _ hfreeLe]
              exact hprio
          · rw [if_neg hk]
            exact htrans _ (fun i hi => hi) (hsorted q w)
      · dsimp only
        exact hsorted q w
  · intro q w
    unfold fwabf_itf_detach
    rcases hadb : cs.fwabf_itf_attach_db policy_id sw with _ | fiaIdx
    · exact hsorted q w
    · dsimp only
      rcases hdb : cs.abf_policy_db policy_id with _ | pi
      · exact hsorted q w
      · dsimp only
        have hmem : fiaIdx ∈ cs.fwabf_attach_per_itf fproto sw := hdbmem fiaIdx hadb
        have hlt : fiaIdx < cs.fwabf_itf_attach_pool.length :=
          getD_lt_of_ne_none _ _ (hlive fproto sw fiaIdx hmem)
        have htrans2 : ∀ (lst : List Nat), (∀ i ∈ lst, i ∈ cs.fwabf_attach_per_itf q w) →
            (∀ i ∈ lst, i ≠ fiaIdx) →
            attachListSorted cs.fwabf_itf_attach_pool lst →
            attachListSorted (poolWrite cs.fwabf_itf_attach_pool fiaIdx none) lst := by
          intro lst hsub hne hst
          refine List.Pairwise.imp_of_mem ?_ hst
          intro a b ha hb hab
          rw [fiaPrio_poolWrite_ne _ _ _ _ (hne a ha) (by omega),
            fiaPrio_poolWrite_ne _ _ _ _ (hne b hb) (by omega)]
          exact hab
        split
        · unfold updProtoFn vecDelAttachIndex
          dsimp only
          by_cases hk : q = fproto ∧ w = sw
          · rw [if_pos hk]
            refine htrans2 _ ?_ ?_ ?_
            · intro i hi
              rw [hk.1, hk.2]
              exact List.mem_of_mem_erase hi
            · intro i hi
              exact ((hnodup fproto sw).mem_erase_iff.mp hi).1
            · exact List.Pairwise.sublist (List.erase_sublist _ _) (hsorted fproto sw)
          · rw [if_neg hk]
            refine htrans2 _ (fun i hi => hi) ?_ (hsorted q w)
            intro i hi hc
            exact hdisj q w i hi hk (by rw [hc] at hi ⊢; exact hmem)
        · unfold updProtoFn vecDelAttachIndex
          dsimp only
          by_cases hk : q = fproto ∧ w = sw
          · rw [if_pos hk]
            refine htrans2 _ ?_ ?_ ?_
            · intro i hi
              rw [hk.1, hk.2]
              exact List.mem_of_mem_erase hi
            · intro i hi
              exact ((hnodup fproto sw).mem_erase_iff.mp hi).1
            · exact List.Pairwise.sublist (List.erase_sublist _ _) (hsorted fproto sw)
          · rw [if_neg hk]
            refine htrans2 _ (fun i hi => hi) ?_ (hsorted q w)
            intro i hi hc
            exact hdisj q w i hi hk (by rw [hc] at hi ⊢; exact hmem)

/-- Witness for C8 at a concrete store with one attachment: attaching policy
5 to a second interface and detaching it leave every per-(interface, family)
list sorted by priority. -/
theorem C8_witness :
    attachListSorted
      (fwabf_itf_attach ctrlStateOneAttach .ip4 5 20 2 9).2.fwabf_itf_attach_pool
      ((fwabf_itf_attach ctrlStateOneAttach .ip4 5 20 2 9).2.fwabf_attach_per_itf .ip4 2) ∧
    attachListSorted
      (fwabf_itf_detach ctrlStateOneAttach .ip4 5 2).2.fwabf_itf_attach_pool
      ((fwabf_itf_detach ctrlStateOneAttach .ip4 5 2).2.fwabf_attach_per_itf .ip4 1) := by
  have hlist : ∀ q w, ctrlStateOneAttach.fwabf_attach_per_itf q w =
      (if q = FibProto.ip4 ∧ w = 1 then [0] else []) := fun q w => rfl
  have hlive : ∀ q w i, i ∈ ctrlStateOneAttach.fwabf_attach_per_itf q w →
      ctrlStateOneAttach.fwabf_itf_attach_pool.getD i none ≠ none := by
    intro q w i hi
    rw [hlist q w] at hi
    split at hi
    · have hz : i = 0 := by simpa using hi
      subst hz
      intro hc
      exact Option.noConfusion hc
    · simp at hi
  have hsorted : ∀ q w, attachListSorted ctrlStateOneAttach.fwabf_itf_attach_pool
      (ctrlStateOneAttach.fwabf_attach_per_itf q w) := by
    intro q w
    rw [hlist q w]
    split
    · exact List.pairwise_singleton _ _
    · exact List.Pairwise.nil
  have hnodup : ∀ q w, (ctrlStateOneAttach.fwabf_attach_per_itf q w).Nodup := by
    intro q w
    rw [hlist q w]
    split
    · exact List.nodup_singleton 0
    · exact List.nodup_nil
  have hdbmem : ∀ i, ctrlStateOneAttach.fwabf_itf_attach_db 5 2 = some i →
      i ∈ ctrlStateOneAttach.fwabf_attach_per_itf .ip4 2 := by
    intro i h
    exact Option.noConfusion (show (none : Option Nat) = some i from h)
  have hdisj : ∀ q w i, i ∈ ctrlStateOneAttach.fwabf_attach_per_itf q w →
      ¬(q = FibProto.ip4 ∧ w = 2) → i ∉ ctrlStateOneAttach.fwabf_attach_per_itf .ip4 2 := by
    intro q w i _ _
    show i ∉ ([] : List Nat)
    simp
  have hpr : ∀ q w i, i ∈ ctrlStateOneAttach.fwabf_attach_per_itf q w →
      fiaPrio ctrlStateOneAttach.fwabf_itf_attach_pool i < 2147483648 := by
    intro q w i hi
    rw [hlist q w] at hi
    split at hi
    · have hz : i = 0 := by simpa using hi
      subst hz
      show 10 < 2147483648
      omega
    · simp at hi
  have hprio : 20 < 2147483648 := by omega
  exact ⟨(C8_attach_lists_sorted ctrlStateOneAttach .ip4 5 20 2 9
            hlive hsorted hnodup hdbmem hdisj hpr hprio).1 .ip4 2,
         (C8_attach_lists_sorted ctrlStateOneAttach .ip4 5 20 2 9
            hlive hsorted hnodup hdbmem hdisj hpr hprio).2 .ip4 1⟩

/-- Counterexample to C8 as stated: starting from a store with two policies
and no attachments, attaching policy 5 at priority 3000000000 and then
policy 6 at priority 0, both to IPv4 interface 1, leaves the
per-(interface 1, IPv4) list as [0, 1] — pool slot 0 (priority 3000000000)
before pool slot 1 (priority 0) — which is not sorted by ascending
priority.  `fwabf_cmp_attach_for_sort` computes 3000000000 - 0 on u32 and
truncates the result to a signed 32-bit int, obtaining -1294967296, so the
sort keeps the numerically larger priority first. -/
theorem C8_counterexample :
    c8AttachState.fwabf_attach_per_itf .ip4 1 = [0, 1] ∧
    fiaPrio c8AttachState.fwabf_itf_attach_pool 0 = 3000000000 ∧
    fiaPrio c8AttachState.fwabf_itf_attach_pool 1 = 0 ∧
    ¬ attachListSorted c8AttachState.fwabf_itf_attach_pool
        (c8AttachState.fwabf_attach_per_itf .ip4 1) := by
  refine ⟨rfl, rfl, rfl, ?_⟩
  intro h
  unfold attachListSorted at h
  rw [show c8AttachState.fwabf_attach_per_itf .ip4 1 = [0, 1] from rfl] at h
  have h01 : fiaPrio c8AttachState.fwabf_itf_attach_pool 0 ≤
      fiaPrio c8AttachState.fwabf_itf_attach_pool 1 :=
    List.rel_of_pairwise_cons h (List.mem_cons_self 1 [])
  rw [show fiaPrio c8AttachState.fwabf_itf_attach_pool 0 = 3000000000 from rfl,
    show fiaPrio c8AttachState.fwabf_itf_attach_pool 1 = 0 from rfl] at h01
  omega

theorem countPreimages_add (f : Nat → Nat) (j m : Nat) :
    ∀ n, countPreimages f j (m + n) =
      countPreimages f j m + countPreimages (fun k => f (m + k)) j n := by
  intro n
  induction n with
  | zero => simp [countPreimages]
  | succ n ih =>
    have h1 : m + (n + 1) = (m + n) + 1 := by omega
    rw [h1]
    show countPreimages f j (m + n) + _ = _
    rw [ih]
    show countPreimages f j m + countPreimages (fun k => f (m + k)) j n +
        (if f (m + n) = j then 1 else 0) =
      countPreimages f j m +
        (countPreimages (fun k => f (m + k)) j n + (if f (m + n) = j then 1 else 0))
    omega

theorem countPreimages_congr (f g : Nat → Nat) (j : Nat) :
    ∀ n, (∀ k, k < n → f k = g k) → countPreimages f j n = countPreimages g j n := by
  intro n
  induction n with
  | zero => intro _; rfl
  | succ n ih =>
    intro h
    show countPreimages f j n + _ = countPreimages g j n + _
    rw [ih (fun k hk => h k (by omega)), h n (by omega)]

theorem countPreimages_period (f : Nat → Nat) (p : Nat) (hper : ∀ n, f n = f (n % p))
    (j : Nat) : ∀ k, countPreimages f j (p * k) = k * countPreimages f j p := by
  intro k
  induction k with
  | zero => simp [countPreimages]
  | succ k ih =>
    have h1 : p * (k + 1) = p * k + p := by ring
    rw [h1, countPreimages_add, ih]
    have hc : countPreimages (fun r => f (p * k + r)) j p = countPreimages f j p := by
      apply countPreimages_congr
      intro r _
      rw [hper (p * k + r), hper r]
      congr 1
      rw [Nat.add_comm (p * k) r, Nat.mul_comm p k]
      exact Nat.add_mul_mod_self_right r k p
    rw [hc]
    ring

theorem countPreimages_mod_aux (p j : Nat) :
    ∀ m, m ≤ p → countPreimages (fun h => h % p) j m = if j < m then 1 else 0 := by
  intro m
  induction m with
  | zero => intro _; simp [countPreimages]
  | succ m ih =>
    intro hm
    show countPreimages (fun h => h % p) j m + _ = _
    rw [ih (by omega)]
    have hmod : (fun h => h % p) m = m := Nat.mod_eq_of_lt (by omega)
    rw [hmod]
    split_ifs <;> omega

theorem countPreimages_mod (p j : Nat) (hj : j < p) :
    countPreimages (fun h => h % p) j p = 1 := by
  rw [countPreimages_mod_aux p j p (le_refl p)]
  rw [if_pos hj]

theorem fwabf_flowhash_index_pow2 (g : Nat) (hg : g ≤ 8) (h : Nat) :
    fwabf_flowhash_index (2 ^ g) h = h % 2 ^ g := by
  unfold fwabf_flowhash_index FWABF_GET_INDEX_BY_FLOWHASH
  dsimp only
  by_cases hsmall : 2 ^ g ≤ 15
  · rw [if_pos hsmall]
    have hm : h &&& 15 = h % 16 := by
      have := Nat.and_pow_two_sub_one_eq_mod h 4
      norm_num at this
      exact this
    rw [hm]
    have hg3 : g ≤ 3 := by
      by_contra hc
      push_neg at hc
      have h16 : (16:Nat) ≤ 2 ^ g := by
        calc (16:Nat) = 2 ^ 4 := by norm_num
        _ ≤ 2 ^ g := Nat.pow_le_pow_right (by norm_num) (by omega)
      omega
    have hdvd : (2:Nat) ^ g ∣ 16 := by
      have h16 : (16:Nat) = 2 ^ 4 := by norm_num
      rw [h16]
      exact pow_dvd_pow 2 (by omega)
    have hpos : 0 < 2 ^ g := Nat.pos_pow_of_pos g (by norm_num)
    by_cases hle : h % 16 ≤ 2 ^ g - 1
    · rw [if_pos hle]
      have hlt : h % 16 < 2 ^ g := by omega
      calc h % 16 = h % 16 % 2 ^ g := (Nat.mod_eq_of_lt hlt).symm
      _ = h % 2 ^ g := Nat.mod_mod_of_dvd h hdvd
    · rw [if_neg hle]
      rw [Nat.and_pow_two_sub_one_eq_mod (h % 16) g]
      exact Nat.mod_mod_of_dvd h hdvd
  · rw [if_neg hsmall]
    have hm : h &&& 255 = h % 256 := by
      have := Nat.and_pow_two_sub_one_eq_mod h 8
      norm_num at this
      exact this
    rw [hm]
    have hdvd : (2:Nat) ^ g ∣ 256 := by
      have h256 : (256:Nat) = 2 ^ 8 := by norm_num
      rw [h256]
      exact pow_dvd_pow 2 hg
    have hpos : 0 < 2 ^ g := Nat.pos_pow_of_pos g (by norm_num)
    by_cases hle : h % 256 ≤ 2 ^ g - 1
    · rw [if_pos hle]
      have hlt : h % 256 < 2 ^ g := by omega
      calc h % 256 = h % 256 % 2 ^ g := (Nat.mod_eq_of_lt hlt).symm
      _ = h % 2 ^ g := Nat.mod_mod_of_dvd h hdvd
    · rw [if_neg hle]
      rw [Nat.and_pow_two_sub_one_eq_mod (h % 256) g]
      exact Nat.mod_mod_of_dvd h hdvd

/-- C10 counterexample: for a vector of 3 groups the flow-hash index is not
uniformly distributed over the 2^32 flow hashes — index 1 has 2^28 preimages
while index 2 has 8·2^28. -/
theorem C10_counterexample :
    countPreimages (fwabf_flowhash_index 3) 1 (2 ^ 32) ≠
      countPreimages (fwabf_flowhash_index 3) 2 (2 ^ 32) := by
  have hper : ∀ n, fwabf_flowhash_index 3 n = fwabf_flowhash_index 3 (n % 16) := by
    intro n
    have h1 : n &&& 15 = n % 16 := by
      have := Nat.and_pow_two_sub_one_eq_mod n 4
      norm_num at this
      exact this
    have h2 : n % 16 &&& 15 = n % 16 := by
      have := Nat.and_pow_two_sub_one_eq_mod (n % 16) 4
      norm_num at this
      exact this
    show (if (n &&& 15) ≤ 2 then (n &&& 15) else (n &&& 15) &&& 2) =
      (if (n % 16 &&& 15) ≤ 2 then (n % 16 &&& 15) else (n % 16 &&& 15) &&& 2)
    rw [h1, h2]
  have hsplit : (2:Nat) ^ 32 = 16 * 2 ^ 28 := by norm_num
  have hc1 : countPreimages (fwabf_flowhash_index 3) 1 (2 ^ 32) = 2 ^ 28 * 1 := by
    rw [hsplit, countPreimages_period _ 16 hper 1 (2 ^ 28)]
    congr 1
  have hc2 : countPreimages (fwabf_flowhash_index 3) 2 (2 ^ 32) = 2 ^ 28 * 8 := by
    rw [hsplit, countPreimages_period _ 16 hper 2 (2 ^ 28)]
    congr 1
  rw [hc1, hc2]
  norm_num

/-- C10 (amended): the flow-hash index always lies in [0, G) for G ≥ 1, and
it is uniformly distributed over the 2^32 flow hashes (equal preimage counts
for all indices) when G is a power of two of at most 256; the
counterexample at G = 3 shows uniformity fails for other counts. -/
theorem C10_flowhash_index (G : Nat) (hG : 1 ≤ G) :
    (∀ h, fwabf_flowhash_index G h < G) ∧
    (∀ g, G = 2 ^ g → G ≤ 256 →
      ∀ j1 j2, j1 < G → j2 < G →
        countPreimages (fwabf_flowhash_index G) j1 (2 ^ 32) =
          countPreimages (fwabf_flowhash_index G) j2 (2 ^ 32)) := by
  constructor
  · intro h
    unfold fwabf_flowhash_index FWABF_GET_INDEX_BY_FLOWHASH
    dsimp only
    set r := h &&& (if G ≤ 15 then 15 else 255) with hr
    by_cases hc : r ≤ G - 1
    · rw [if_pos hc]
      omega
    · rw [if_neg hc]
      have hand : r &&& (G - 1) ≤ G - 1 := Nat.and_le_right
      omega
  · intro g hGg hle j1 j2 hj1 hj2
    have hg8 : g ≤ 8 := by
      by_contra hc
      push_neg at hc
      have : (2:Nat) ^ 9 ≤ 2 ^ g := Nat.pow_le_pow_right (by norm_num) (by omega)
      have h512 : (2:Nat) ^ 9 = 512 := by norm_num
      omega
    subst hGg
    have hcount : ∀ j, j < 2 ^ g →
        countPreimages (fwabf_flowhash_index (2 ^ g)) j (2 ^ 32) = 2 ^ (32 - g) := by
      intro j hj
      have hcongr : countPreimages (fwabf_flowhash_index (2 ^ g)) j (2 ^ 32) =
          countPreimages (fun h => h % 2 ^ g) j (2 ^ 32) :=
        countPreimages_congr _ _ j (2 ^ 32)
          (fun k _ => fwabf_flowhash_index_pow2 g hg8 k)
      rw [hcongr]
      have hper : ∀ n, n % 2 ^ g = n % 2 ^ g % 2 ^ g := by
        intro n
        rw [Nat.mod_mod_of_dvd n dvd_rfl]
      have hsplit : (2:Nat) ^ 32 = 2 ^ g * 2 ^ (32 - g) := by
        rw [← pow_add]
        congr 1
        omega
      rw [hsplit, countPreimages_period _ (2 ^ g) hper j (2 ^ (32 - g))]
      rw [countPreimages_mod (2 ^ g) j hj]
      omega
    rw [hcount j1 hj1, hcount j2 hj2]

/-- Witness for C10 (amended) at G = 4: every index is below 4, and indices
1 and 3 have equal preimage counts. -/
theorem C10_witness :
    (∀ h, fwabf_flowhash_index 4 h < 4) ∧
    countPreimages (fwabf_flowhash_index 4) 1 (2 ^ 32) =
      countPreimages (fwabf_flowhash_index 4) 3 (2 ^ 32) :=
  ⟨(C10_flowhash_index 4 (by norm_num)).1,
   (C10_flowhash_index 4 (by norm_num)).2 2 (by norm_num) (by norm_num)
     1 3 (by norm_num) (by norm_num)⟩

end Fwabf
